import Mathlib

/-!
# Weekly class schedule: week filtering, rendering and the course proxy

A shallow embedding of `src/script.js` (the schedule client) and of the record
mapping of `src/server/server.js` (the course proxy), with the properties of
the specification stated over it.

## Conventions of the embedding

* A JavaScript time value is an integer number of milliseconds since the epoch.
  Every arithmetic step on time values is exact in double precision, so `Int`
  carries them; the clipping of time values beyond `8.64e15` ms is not modelled.
* The host's local time zone is a parameter `z : Zone`: the offset in force at
  each instant and the offset by which each local time is read, so that zones
  with daylight-saving transitions are covered.
* `new Date()` is the reading `now` of the system clock, in milliseconds since
  the epoch.
* `new Date(text).getTime()` on a string that is not of the date-only form is
  left to the engine: it is the parameter `dateParse`, with `none` for `NaN`.
* `null` and `undefined` are `none`; the empty string is falsy as in JavaScript.
* A finite Number other than a time value is the rational it denotes, and a
  product or quotient is rounded to the nearest double (`toDouble`).
-/

namespace Jiaxiao

/-! ## ECMAScript date arithmetic (the `Date` built-ins the source calls) -/

/-- Milliseconds in a day. -/
def msPerDay : Int := 86400000

/-- The day number of a time value: `Day(t) = floor(t / msPerDay)`. -/
def Day (t : Int) : Int := t / msPerDay

/-- The milliseconds elapsed within the day: `TimeWithinDay(t) = t mod msPerDay`. -/
def TimeWithinDay (t : Int) : Int := t % msPerDay

/-- The day number of 1 January of year `y` (`DayFromYear` of ECMAScript). -/
def DayFromYear (y : Int) : Int :=
  365 * (y - 1970) + (y - 1969) / 4 - (y - 1901) / 100 + (y - 1601) / 400

/-- Leap years of the proleptic Gregorian calendar. -/
def InLeapYear (y : Int) : Bool :=
  if y % 4 ≠ 0 then false
  else if y % 100 ≠ 0 then true
  else if y % 400 ≠ 0 then false
  else true

/-- The year containing day number `d`: the largest `y` with `DayFromYear y ≤ d`.
An estimate from the mean year length is corrected by at most one year. -/
def YearFromDay (d : Int) : Int :=
  let y0 := 1970 + (d * 400) / 146097
  if d < DayFromYear y0 then y0 - 1
  else if DayFromYear (y0 + 1) ≤ d then y0 + 1
  else y0

/-- The extra day of a leap year: `DaysInYear(y) - 365`. -/
def leapDay (y : Int) : Int := if InLeapYear y then 1 else 0

/-- The number of days before month `m` (0 = January) in a year with `l` leap
days (0 or 1). -/
def daysBeforeMonth (l : Int) (m : Int) : Int :=
  if m ≤ 0 then 0
  else if m = 1 then 31
  else if m = 2 then 59 + l
  else if m = 3 then 90 + l
  else if m = 4 then 120 + l
  else if m = 5 then 151 + l
  else if m = 6 then 181 + l
  else if m = 7 then 212 + l
  else if m = 8 then 243 + l
  else if m = 9 then 273 + l
  else if m = 10 then 304 + l
  else 334 + l

/-- The month (0 = January) of the day `dwy` days into a year with `l` leap
days (`MonthFromTime` of ECMAScript). -/
def monthFromDayWithinYear (l : Int) (dwy : Int) : Int :=
  if dwy < 31 then 0
  else if dwy < 59 + l then 1
  else if dwy < 90 + l then 2
  else if dwy < 120 + l then 3
  else if dwy < 151 + l then 4
  else if dwy < 181 + l then 5
  else if dwy < 212 + l then 6
  else if dwy < 243 + l then 7
  else if dwy < 273 + l then 8
  else if dwy < 304 + l then 9
  else if dwy < 334 + l then 10
  else 11

/-- The built-in `YearFromTime(t)`. -/
def YearFromTime (t : Int) : Int := YearFromDay (Day t)

/-- The built-in `DayWithinYear(t)`. -/
def DayWithinYear (t : Int) : Int := Day t - DayFromYear (YearFromTime t)

/-- The built-in `MonthFromTime(t)`, 0 = January. -/
def MonthFromTime (t : Int) : Int :=
  monthFromDayWithinYear (leapDay (YearFromTime t)) (DayWithinYear t)

/-- The built-in `DateFromTime(t)`, the day of the month, 1-based. -/
def DateFromTime (t : Int) : Int :=
  DayWithinYear t - daysBeforeMonth (leapDay (YearFromTime t)) (MonthFromTime t) + 1

/-- The built-in `WeekDay(t)`: 0 = Sunday, 1 = Monday, ..., 6 = Saturday. -/
def WeekDay (t : Int) : Int := (Day t + 4) % 7

/-- The built-in `MakeTime(hour, min, sec, ms)`. -/
def MakeTime (h m s ms : Int) : Int := h * 3600000 + m * 60000 + s * 1000 + ms

/-- The built-in `MakeDay(year, month, date)`: months outside 0..11 carry into the year and
dates outside the month carry into the neighbouring months. -/
def MakeDay (year month date : Int) : Int :=
  let ym := year + month / 12
  let mn := month % 12
  DayFromYear ym + daysBeforeMonth (leapDay ym) mn + date - 1

/-- The built-in `MakeDate(day, time)`. -/
def MakeDate (day time : Int) : Int := day * msPerDay + time

/-- The host's time zone, as ECMAScript reads it: `utcOffset t` is the offset
(milliseconds east of UTC) in force at the instant `t`, `LocalTZA(t, true)`;
`localOffset l` is the offset by which the local time value `l` is read,
`LocalTZA(l, false)`. -/
structure Zone where
  utcOffset : Int → Int
  localOffset : Int → Int

/-- The built-in `LocalTime(t)`: the local time value of the instant `t`. -/
def LocalTime (z : Zone) (t : Int) : Int := t + z.utcOffset t

/-- The built-in `UTC(l)`: the instant of the local time value `l`. -/
def UTC (z : Zone) (l : Int) : Int := l - z.localOffset l

/-- A zone whose offset never changes. -/
def Zone.fixed (tz : Int) : Zone :=
  { utcOffset := fun _ => tz, localOffset := fun _ => tz }

/-- A zone with one transition, at the instant `T`, from the offset `a` to the
offset `b`. A local time that the transition skips or repeats is read with the
offset before the transition, as ECMAScript prescribes. -/
def Zone.transition (a b T : Int) : Zone :=
  { utcOffset := fun t => if t < T then a else b
    localOffset := fun l => if l < T + max a b then a else b }

/-- The time value of `new Date(y, m, d, h, mi, s, ms)`: the fields are read as
local time, and a year from 0 to 99 stands for 1900 + year. -/
def newDateLocal (z : Zone) (y m d h mi s ms : Int) : Int :=
  let yr := if 0 ≤ y ∧ y ≤ 99 then 1900 + y else y
  UTC z (MakeDate (MakeDay yr m d) (MakeTime h mi s ms))

/-- The built-in `Date.prototype.setDate(dt)` on the time value `t`. -/
def setDate (z : Zone) (t : Int) (dt : Int) : Int :=
  let lt := LocalTime z t
  UTC z (MakeDate (MakeDay (YearFromTime lt) (MonthFromTime lt) dt) (TimeWithinDay lt))

/-- The built-in `Date.prototype.setHours(h, mi, s, ms)` on the time value `t`. -/
def setHours (z : Zone) (t : Int) (h mi s ms : Int) : Int :=
  UTC z (MakeDate (Day (LocalTime z t)) (MakeTime h mi s ms))

/-- The built-in `getFullYear()`. -/
def getFullYear (z : Zone) (t : Int) : Int := YearFromTime (LocalTime z t)

/-- The built-in `getMonth()`. -/
def getMonth (z : Zone) (t : Int) : Int := MonthFromTime (LocalTime z t)

/-- The built-in `getDate()`. -/
def getDate (z : Zone) (t : Int) : Int := DateFromTime (LocalTime z t)

/-- The built-in `getDay()`. -/
def getDay (z : Zone) (t : Int) : Int := WeekDay (LocalTime z t)

/-! ## `src/script.js`: week range and date normalisation -/

/-- The pair of `Date` objects returned by `getWeekRange`, as time values. -/
structure WeekRange where
  start : Int
  «end» : Int
  deriving DecidableEq, Repr

/-- The pair of timestamps returned by `getWeekRangeTs`. -/
structure WeekRangeTs where
  startTs : Int
  endTs : Int
  deriving DecidableEq, Repr

/-- Source function `getWeekRange(offset)`: the Monday-first week of today, moved by
`offset` weeks. -/
def getWeekRange (z : Zone) (now : Int) (offset : Int) : WeekRange :=
  let d := newDateLocal z (getFullYear z now) (getMonth z now) (getDate z now) 0 0 0 0
  let day := (getDay z d + 6) % 7
  let monday := d
  let monday := setDate z monday (getDate z d - day + offset * 7)
  let monday := setHours z monday 0 0 0 0
  let sunday := monday
  let sunday := setDate z sunday (getDate z monday + 6)
  let sunday := setHours z sunday 23 59 59 999
  { start := monday, «end» := sunday }

/-- Source function `getWeekRangeTs(offset)`. -/
def getWeekRangeTs (z : Zone) (now : Int) (offset : Int) : WeekRangeTs :=
  let r := getWeekRange z now offset
  { startTs := r.start, endTs := r.«end» }

/-- Source function `isDateOnlyString(s)` on a string: the test of `/^\d{4}-\d{2}-\d{2}$/`. -/
def isDateOnlyString (s : String) : Bool :=
  match s.toList with
  | [y1, y2, y3, y4, s1, m1, m2, s2, d1, d2] =>
    y1.isDigit && y2.isDigit && y3.isDigit && y4.isDigit && s1 == '-' &&
      m1.isDigit && m2.isDigit && s2 == '-' && d1.isDigit && d2.isDigit
  | _ => false

/-- The built-in `String.prototype.split(sep)` for a one-character separator. -/
def splitOn (sep : Char) : List Char → List (List Char)
  | [] => [[]]
  | c :: cs =>
    if c = sep then [] :: splitOn sep cs
    else
      match splitOn sep cs with
      | [] => [[c]]
      | p :: ps => (c :: p) :: ps

/-- The value of a run of decimal digits read from the left, `none` when a
character is not an ASCII digit. -/
def digitsValue (acc : Int) : List Char → Option Int
  | [] => some acc
  | c :: cs => if c.isDigit then digitsValue (acc * 10 + (c.toNat - 48 : Nat)) cs else none

/-- The built-in `Number(text)` on the pieces that `split` hands over: a run of ASCII digits
is its decimal value and the empty string is 0. Any other text is `none`; such
pieces never arise from a string accepted by `isDateOnlyString`. -/
def jsNumber (piece : List Char) : Option Int := digitsValue 0 piece

/-- The destructuring `const [y, m, d] = s.split('-').map(Number)`. -/
def splitYMD (s : String) : Option (Int × Int × Int) :=
  match (splitOn '-' s.toList).map jsNumber with
  | some y :: some m :: some d :: _ => some (y, m, d)
  | _ => none

/-- Source function `toLocalStartOfDayTs(s)`; `none` stands for a `NaN` time value. -/
def toLocalStartOfDayTs (z : Zone) (s : String) : Option Int :=
  match splitYMD s with
  | some (y, m, d) => some (newDateLocal z y (m - 1) d 0 0 0 0)
  | none => none

/-- Source function `toLocalEndOfDayTs(s)`; `none` stands for a `NaN` time value. -/
def toLocalEndOfDayTs (z : Zone) (s : String) : Option Int :=
  match splitYMD s with
  | some (y, m, d) => some (newDateLocal z y (m - 1) d 23 59 59 999)
  | none => none

/-- Source function `normalizeToTimestamp(input, asEnd)`; `none` is "no timestamp". -/
def normalizeToTimestamp (z : Zone) (dateParse : String → Option Int)
    (input : Option String) (asEnd : Bool) : Option Int :=
  match input with
  | none => none
  | some s =>
    if s = "" then none
    else if isDateOnlyString s then
      (if asEnd then toLocalEndOfDayTs z s else toLocalStartOfDayTs z s)
    else dateParse s

/-- Source function `overlapsTs(aStartTs, aEndTs, bStartTs, bEndTs)`. -/
def overlapsTs (aStartTs : Int) (aEndTs : Option Int) (bStartTs bEndTs : Int) : Bool :=
  let s := aStartTs
  let e := aEndTs.getD aStartTs
  decide (s ≤ bEndTs) && decide (e ≥ bStartTs)

/-- The truthiness of a value that is a string, `null` or `undefined`. -/
def truthy (v : Option String) : Bool :=
  match v with
  | none => false
  | some s => s != ""

/-- A course as the client holds it (the object built by `fetchCoursesFromAPI`). -/
structure Course where
  name : String
  datetime : String
  teacher : String
  clazz : String
  status : String
  durationMinutes : Option Int
  attendanceRate : Option ℚ
  dateStart : Option String
  dateEnd : Option String
  deriving DecidableEq

/-- The callback of the `filter` in `filterByWeek`; a `null` item is `none`. -/
def inWeek (z : Zone) (dateParse : String → Option Int) (w : WeekRangeTs)
    (item : Option Course) : Bool :=
  match normalizeToTimestamp z dateParse (item.bind (·.dateStart)) false with
  | none => false
  | some s =>
    let hasEnd := truthy (item.bind (·.dateEnd))
    let e := normalizeToTimestamp z dateParse
      (if hasEnd then item.bind (·.dateEnd) else none) hasEnd
    overlapsTs s e w.startTs w.endTs

/-- Source function `filterByWeek(list, offset)`. -/
def filterByWeek (z : Zone) (dateParse : String → Option Int) (now : Int)
    (list : Option (List (Option Course))) (offset : Int) : List (Option Course) :=
  let w := getWeekRangeTs z now offset
  (list.getD []).filter (inWeek z dateParse w)

/-! ## `src/script.js`: status classes -/

/-- The characters `String.prototype.trim` removes: the WhiteSpace and
LineTerminator code points of ECMAScript. -/
def isJsWhiteSpace (c : Char) : Bool :=
  let n := c.toNat
  n == 0x9 || n == 0xA || n == 0xB || n == 0xC || n == 0xD || n == 0x20 || n == 0xA0 ||
    n == 0x1680 || (0x2000 ≤ n && n ≤ 0x200A) || n == 0x2028 || n == 0x2029 ||
    n == 0x202F || n == 0x205F || n == 0x3000 || n == 0xFEFF

/-- The built-in `String.prototype.trim` on the characters of a string. -/
def jsTrim (cs : List Char) : List Char :=
  ((cs.dropWhile isJsWhiteSpace).reverse.dropWhile isJsWhiteSpace).reverse

/-- Whether `pat` occurs in the text: `/pat/.test(text)` for a literal pattern. -/
def containsSub (pat : List Char) : List Char → Bool
  | [] => pat.isEmpty
  | c :: cs => pat.isPrefixOf (c :: cs) || containsSub pat cs

/-- What `mapStatusToClass` returns: a style class name, or a member that the
object literal `directMap` inherits from `Object.prototype`. -/
inductive StatusClass where
  | cls (name : String)
  | inherited (key : String)
  deriving DecidableEq, Repr

/-- The property names of `Object.prototype`, which every object literal
inherits; each holds a function or an object, hence a truthy value. -/
def objectPrototypeKeys : List String :=
  ["constructor", "__defineGetter__", "__defineSetter__", "hasOwnProperty",
    "__lookupGetter__", "__lookupSetter__", "isPrototypeOf", "propertyIsEnumerable",
    "toString", "valueOf", "__proto__", "toLocaleString"]

/-- The property read `directMap[s]`: the four own properties first, then the
prototype chain; `none` is `undefined`. -/
def directMap (s : String) : Option StatusClass :=
  if s = "进行中" then some (.cls "status-ongoing")
  else if s = "计划中" then some (.cls "status-planned")
  else if s = "已完成" then some (.cls "status-completed")
  else if s = "已取消" then some (.cls "status-cancelled")
  else if s ∈ objectPrototypeKeys then some (.inherited s)
  else none

/-- Source function `mapStatusToClass(statusText)`. -/
def mapStatusToClass (statusText : Option String) : StatusClass :=
  let s := String.mk (jsTrim (statusText.getD "").toList)
  match directMap s with
  | some v => v
  | none =>
    if containsSub "进行".toList s.toList then .cls "status-ongoing"
    else if containsSub "计划".toList s.toList || containsSub "未开始".toList s.toList then
      .cls "status-planned"
    else if containsSub "完成".toList s.toList then .cls "status-completed"
    else if containsSub "取消".toList s.toList then .cls "status-cancelled"
    else .cls "status-planned"

/-! ## JavaScript numbers

A finite Number is carried by the rational it denotes. A product or quotient
is rounded to the nearest double, ties to even (`toDouble`): overflow to an
infinity and `NaN` are outside the model. Integers print in decimal, as
JavaScript prints them below `1e21` in magnitude. -/

/-- Rounding to the nearest integer, a tie going to the even one. -/
def roundHalfEven (x : ℚ) : Int :=
  if x - ⌊x⌋ < 1 / 2 then ⌊x⌋
  else if 1 / 2 < x - ⌊x⌋ then ⌊x⌋ + 1
  else if ⌊x⌋ % 2 = 0 then ⌊x⌋
  else ⌊x⌋ + 1

/-- The exponent of the unit in the last place of the doubles around `x`: 52
binary places below the leading bit, and not below `-1074` (subnormals). -/
def doubleExponent (x : ℚ) : Int := max (Int.log 2 |x| - 52) (-1074)

/-- The double nearest to the real number `x`, ties to even. -/
def toDouble (x : ℚ) : ℚ :=
  if x = 0 then 0
  else (roundHalfEven (x / (2 : ℚ) ^ doubleExponent x) : ℚ) * (2 : ℚ) ^ doubleExponent x

/-- The built-in `Math.round(x)`: the nearest integer, a tie going to the larger one. -/
def mathRound (x : ℚ) : Int := ⌊x + 1 / 2⌋

/-! ## `src/script.js`: attendance -/

/-- Source function `formatAttendance(value)`; a value that is not a number is `none`. -/
def formatAttendance (value : Option ℚ) : String :=
  match value with
  | none => ""
  | some value =>
    let v := if value ≤ 1 then mathRound (toDouble (value * 100)) else mathRound value
    "出勤率 " ++ toString v ++ "%"

/-! ## `src/server/server.js`: the record mapping of `/api/courses` -/

/-- An item of a `title` or `rich_text` array. -/
structure RichTextItem where
  plain_text : Option String

/-- An option of a `select`, `multi_select` or `status` property. -/
structure NamedOption where
  name : Option String

/-- The value of a `date` property. -/
structure DateValue where
  start : Option String
  «end» : Option String

/-- The value of a `formula` property. -/
structure NumberValue where
  number : Option ℚ

/-- A property object of an upstream page: its type tag and the value fields
the proxy reads; a field that is absent is `none`. Of `people` and `relation`
only the length is read. -/
structure Property where
  type : Option String
  title : Option (List RichTextItem)
  rich_text : Option (List RichTextItem)
  select : Option NamedOption
  multi_select : Option (List NamedOption)
  date : Option DateValue
  people : Option (List Unit)
  relation : Option (List Unit)
  status : Option NamedOption
  formula : Option NumberValue

/-- An upstream page; `properties` maps a property name to its object. -/
structure Page where
  properties : Option (String → Option Property)

/-- What `readPropertyText` returns: a string, or for a `date` property the
object with its `start` and `end`. -/
inductive PropertyText where
  | text (s : String)
  | dateRange (start : Option String) («end» : Option String)
  deriving DecidableEq, Repr

/-- JavaScript truthiness of a `readPropertyText` result: an object is truthy,
a string is truthy unless empty. -/
def PropertyText.truthy : PropertyText → Bool
  | .text s => s != ""
  | .dateRange _ _ => true

/-- The operator `a || b` on `readPropertyText` results. -/
def PropertyText.or (a b : PropertyText) : PropertyText :=
  if a.truthy then a else b

/-- The operator `v || null` on a string that may be absent. -/
def orNull (v : Option String) : Option String :=
  if truthy v then v else none

/-- The built-in `Array.prototype.join(sep)` on strings. -/
def joinWith (sep : String) : List String → String
  | [] => ""
  | [a] => a
  | a :: b :: rest => a ++ sep ++ joinWith sep (b :: rest)

/-- The flattening `(items || []).map(t => t.plain_text || '').filter(Boolean).join('')`. -/
def plainText (items : Option (List RichTextItem)) : String :=
  joinWith "" (((items.getD []).map (fun t => (orNull t.plain_text).getD "")).filter
    (fun s => s != ""))

/-- Source function `readPropertyText(props, key)`. -/
def readPropertyText (props : String → Option Property) (key : String) : PropertyText :=
  match props key with
  | none => .text ""
  | some p =>
    if truthy p.type = false then .text ""
    else if p.type = some "title" then .text (plainText p.title)
    else if p.type = some "rich_text" then .text (plainText p.rich_text)
    else if p.type = some "select" then .text ((orNull (p.select.bind (·.name))).getD "")
    else if p.type = some "multi_select" then
      .text (joinWith "、" (((p.multi_select.getD []).map (·.name)).filterMap orNull))
    else if p.type = some "date" then
      .dateRange (orNull (p.date.bind (·.start))) (orNull (p.date.bind (·.«end»)))
    else if p.type = some "people" then
      .text (if (p.people.getD []).length ≠ 0
        then toString (p.people.getD []).length ++ "位老师" else "")
    else if p.type = some "relation" then
      .text (if (p.relation.getD []).length ≠ 0
        then toString (p.relation.getD []).length ++ "个班级" else "")
    else .text ""

/-- The value of `durationMinutes`: `null`, `NaN`, or a number of minutes. -/
inductive Duration where
  | null
  | nan
  | minutes (n : Int)
  deriving DecidableEq, Repr

/-- The record built for one page by the handler of `/api/courses`. -/
structure CourseRecord where
  name : PropertyText
  dateStart : Option String
  dateEnd : Option String
  teacher : PropertyText
  room : PropertyText
  clazz : PropertyText
  status : String
  durationMinutes : Duration
  attendanceRate : Option ℚ

/-- The computation of `durationMinutes` from `startISO` and `endISO`;
`dateParse` is the time value of `new Date(text)`, `none` for an invalid date. -/
def durationMinutes (dateParse : String → Option Int) (startISO endISO : Option String) :
    Duration :=
  match startISO, endISO with
  | some s, some e =>
    if s ≠ "" ∧ e ≠ "" then
      match dateParse s, dateParse e with
      | some start, some «end» =>
        let diff : Int := max 0 («end» - start)
        .minutes (mathRound (toDouble ((diff : ℚ) / 60000)))
      | _, _ => .nan
    else .null
  | _, _ => .null

/-- The callback of `results.map` in the handler of `/api/courses`. -/
def toCourse (dateParse : String → Option Int) (page : Page) : CourseRecord :=
  let props := page.properties.getD (fun _ => none)
  let title := ((readPropertyText props "课程主题/日期").or
    (readPropertyText props "课程主题")).or (readPropertyText props "名称")
  let teacher := readPropertyText props "老师"
  let clazzText := readPropertyText props "关联班级"
  let status := (orNull (((props "课程状态").bind (·.status)).bind (·.name))).getD ""
  let attendance := ((props "出勤率").bind (·.formula)).bind (·.number)
  let startISO := orNull (((props "日期").bind (·.date)).bind (·.start))
  let endISO := orNull (((props "日期").bind (·.date)).bind (·.«end»))
  let room := clazzText.or (.text "")
  { name := title.or (.text "未命名课程")
    dateStart := startISO
    dateEnd := endISO
    teacher := teacher.or (.text "未指定老师")
    room := room
    clazz := room
    status := status
    durationMinutes := durationMinutes dateParse startISO endISO
    attendanceRate := attendance }

/-- A property object with the given type tag and no value field. -/
def emptyProperty (type : String) : Property :=
  { type := some type, title := none, rich_text := none, select := none,
    multi_select := none, date := none, people := none, relation := none,
    status := none, formula := none }

/-- A page with a title, a teacher, a class relation and a date from 09:00 to
10:30 local time on Monday 9 February 2026. -/
def samplePage : Page :=
  { properties := some (fun key =>
      if key = "课程主题" then
        some { emptyProperty "title" with title := some [{ plain_text := some "倒车入库" }] }
      else if key = "老师" then
        some { emptyProperty "select" with select := some { name := some "王老师" } }
      else if key = "关联班级" then
        some { emptyProperty "relation" with relation := some [(), ()] }
      else if key = "日期" then
        some { emptyProperty "date" with
          date := some { start := some "2026-02-09T09:00:00.000+08:00",
                         «end» := some "2026-02-09T10:30:00.000+08:00" } }
      else none) }

/-- The time values of the two date strings of `samplePage`. -/
def sampleParse (s : String) : Option Int :=
  if s = "2026-02-09T09:00:00.000+08:00" then some 1770598800000
  else if s = "2026-02-09T10:30:00.000+08:00" then some 1770604200000
  else none

/-- A page whose teacher property is a date. -/
def dateTeacherPage : Page :=
  { properties := some (fun key =>
      if key = "老师" then
        some { emptyProperty "date" with
          date := some { start := some "2026-02-09", «end» := none } }
      else none) }

/-- Whether the property under `key` carries the type tag `date`. -/
def isDateTyped (page : Page) (key : String) : Bool :=
  ((page.properties.getD (fun _ => none) key).bind (·.type)) == some "date"

/-- Whether `readPropertyText` reads the property under `key` as the empty
string (the property is missing, has no type, or flattens to no text). -/
def readsEmpty (page : Page) (key : String) : Bool :=
  readPropertyText (page.properties.getD (fun _ => none)) key == .text ""

/-- Whether the title comes from a date: the first of the properties
课程主题/日期, 课程主题 and 名称 that does not read as the empty string is
date-typed. -/
def titleFromDate (page : Page) : Bool :=
  isDateTyped page "课程主题/日期" ||
    (readsEmpty page "课程主题/日期" && isDateTyped page "课程主题") ||
    (readsEmpty page "课程主题/日期" && readsEmpty page "课程主题" && isDateTyped page "名称")

/-- A page whose first title property holds text and whose second title
property is a date. -/
def shadowedDatePage : Page :=
  { properties := some (fun key =>
      if key = "课程主题/日期" then
        some { emptyProperty "title" with title := some [{ plain_text := some "科目二" }] }
      else if key = "课程主题" then
        some { emptyProperty "date" with
          date := some { start := some "2026-02-09", «end» := none } }
      else none) }

/-- The inclusion rule in the words of the specification: the start resolves
to a timestamp `s`, and the interval from `s` to `e` meets the week, where `e`
is the resolved end, or `s` itself when no end resolves. -/
def specIncluded (z : Zone) (dateParse : String → Option Int) (w : WeekRangeTs)
    (item : Option Course) : Prop :=
  ∃ s : Int, normalizeToTimestamp z dateParse (item.bind (·.dateStart)) false = some s ∧
    s ≤ w.endTs ∧
    (match normalizeToTimestamp z dateParse (item.bind (·.dateEnd)) true with
      | some e => e
      | none => s) ≥ w.startTs

/-- A course with the given start and end values and no other content. -/
def courseWithDates (dateStart dateEnd : Option String) : Course :=
  { name := "", datetime := "", teacher := "", clazz := "", status := "",
    durationMinutes := none, attendanceRate := none,
    dateStart := dateStart, dateEnd := dateEnd }

/-! ## `src/script.js`: rendering -/

/-- A DOM element built by the renderer: tag, class name, text and children. -/
inductive Element where
  | node (tag className textContent : String) (children : List Element)

/-- The `className` of an element. -/
def Element.className : Element → String
  | .node _ c _ _ => c

/-- The element `#schedule`: its children and its class list. -/
structure Container where
  children : List Element
  classList : List String

/-- The `.tab-count` badge inside a week tab. -/
structure TabCount where
  textContent : String
  display : String

/-- A `.week-tab` button: its `.tab-count` badge, if it has one, and its
`aria-label`. -/
structure TabButton where
  count : Option TabCount
  ariaLabel : Option String

/-- The part of the page the renderer reads and writes: the element
`#schedule`, the text of `.page-title`, the two week tabs, and the cache
`window.ALL_CLASSES`. An element that is absent is `none`. -/
structure Dom where
  schedule : Option Container
  pageTitle : Option String
  currentTab : Option TabButton
  nextTab : Option TabButton
  allClasses : Option (List (Option Course))

/-- The text of a `mapStatusToClass` result inside a template literal; an
inherited member prints as V8 prints a built-in function or object. -/
def StatusClass.toText : StatusClass → String
  | .cls name => name
  | .inherited key =>
    if key = "__proto__" then "[object Object]"
    else if key = "constructor" then "function Object() \x7b [native code] \x7d"
    else "function " ++ key ++ "() \x7b [native code] \x7d"

/-- The operator `a || b` on strings. -/
def strOr (a b : String) : String := if a != "" then a else b

/-- The card that `renderSchedule` builds for one course. -/
def courseCard (item : Course) : Element :=
  let statusBadge : List Element :=
    if item.status != "" then
      [.node "span" ("status-badge " ++ (mapStatusToClass (some item.status)).toText)
        item.status []]
    else []
  let nameEl := Element.node "div" "course-name" (strOr item.name "未命名课程") []
  let durationText :=
    match item.durationMinutes with
    | some n => if n > 0 then " · " ++ toString n ++ "分钟" else ""
    | none => ""
  let timeEl := Element.node "div" "course-datetime"
    (strOr item.datetime "未设置时间" ++ durationText) []
  let left := Element.node "div" "card-left" "" (statusBadge ++ [nameEl, timeEl])
  let teacherMeta := Element.node "div" "meta" ""
    [.node "span" "meta-label" "老师" [],
     .node "span" "meta-value" (strOr item.teacher "未指定老师") []]
  let classMeta := Element.node "div" "meta" ""
    [.node "span" "meta-label" "班级" [],
     .node "span" "meta-value" (strOr item.clazz "未关联班级") []]
  let right := Element.node "div" "card-right" "" [teacherMeta, classMeta]
  let att : List Element :=
    match item.attendanceRate with
    | some r => [.node "div" "attendance-badge" (formatAttendance (some r)) []]
    | none => []
  .node "section" "class-card" "" (att ++ [left, right])

/-- The loop `classes.forEach(...)` of `renderSchedule`: the cards appended, and
the error that ends the loop when an item is `null`. -/
def renderCards : List (Option Course) → List Element × Option String
  | [] => ([], none)
  | none :: _ => ([], some "TypeError: Cannot read properties of null")
  | some item :: rest =>
    let r := renderCards rest
    (courseCard item :: r.1, r.2)

/-- The placeholder of an empty week. -/
def emptyPlaceholder : Element := .node "div" "empty" "本周暂无课程" []

/-- Source function `renderSchedule(classes)`: the page afterwards, and the error
thrown, if any. -/
def renderSchedule (dom : Dom) (classes : Option (List (Option Course))) :
    Dom × Option String :=
  match dom.schedule with
  | none => (dom, none)
  | some container =>
    match classes with
    | none | some [] =>
      ({ dom with schedule := some { container with children := [emptyPlaceholder] } }, none)
    | some (c :: cs) =>
      let r := renderCards (c :: cs)
      ({ dom with schedule := some { container with children := r.1 } }, r.2)

/-- Source function `setPageTitle(which)`. -/
def setPageTitle (dom : Dom) (which : String) : Dom :=
  match dom.pageTitle with
  | none => dom
  | some _ => { dom with pageTitle := some (if which = "next" then "下周课表" else "本周课表") }

/-- The update of one week tab in `updateWeekCounts`. -/
def updateTab (tab : Option TabButton) (label : String) (n : Nat) : Option TabButton :=
  match tab with
  | none => none
  | some btn =>
    some { count := btn.count.map (fun _ =>
             { textContent := toString n, display := if n = 0 then "none" else "" })
           ariaLabel := some (label ++ "（" ++ toString n ++ "节课）") }

/-- Source function `updateWeekCounts()`, with the clock reading `now`. -/
def updateWeekCounts (z : Zone) (dateParse : String → Option Int) (now : Int) (dom : Dom) :
    Dom :=
  let list := dom.allClasses.getD []
  let currentCount := (filterByWeek z dateParse now (some list) 0).length
  let nextCount := (filterByWeek z dateParse now (some list) 1).length
  { dom with currentTab := updateTab dom.currentTab "本周" currentCount
             nextTab := updateTab dom.nextTab "下周" nextCount }

/-- The built-in `classList.add(name)`. -/
def classListAdd (classList : List String) (name : String) : List String :=
  if name ∈ classList then classList else classList ++ [name]

/-- The built-in `classList.remove(name)`. -/
def classListRemove (classList : List String) (name : String) : List String :=
  classList.filter (fun c => c != name)

/-- The error of a call to `renderEmptyState`, an identifier that no source
file declares. -/
def renderEmptyStateError : String := "ReferenceError: renderEmptyState is not defined"

/-- The timer callback of `renderCoursesByWeek`, run at the clock reading
`later`, on the page `dom` whose `#schedule` exists. -/
def renderCoursesByWeekCallback (z : Zone) (dateParse : String → Option Int) (later : Int)
    (filtered : List (Option Course)) (weekType : String) (dom : Dom) : Dom × Option String :=
  if filtered.length = 0 then (dom, some renderEmptyStateError)
  else
    match renderSchedule dom (some filtered) with
    | (dom, some err) => (dom, some err)
    | (dom, none) =>
      let dom := setPageTitle dom weekType
      let dom := updateWeekCounts z dateParse later dom
      ({ dom with schedule := dom.schedule.map (fun c =>
          { c with classList := classListRemove c.classList "is-fading" }) }, none)

/-- Source function `renderCoursesByWeek(weekType)`, called at the clock reading `now`, with
its timer callback run at the reading `later`: the page afterwards, and the
error the callback throws, if any. -/
def renderCoursesByWeek (z : Zone) (dateParse : String → Option Int) (now later : Int)
    (dom : Dom) (weekType : String) : Dom × Option String :=
  let offset : Int := if weekType = "next" then 1 else 0
  let list := dom.allClasses.getD []
  let filtered := filterByWeek z dateParse now (some list) offset
  match dom.schedule with
  | none => (dom, none)
  | some container =>
    let container :=
      { container with classList := classListAdd container.classList "is-fading" }
    let dom := { dom with schedule := some container }
    renderCoursesByWeekCallback z dateParse later filtered weekType dom

/-- Source function `renderWeek(which)`, called at the clock reading `now`, with the timer
callback of `animateSwap` run afterwards. -/
def renderWeek (z : Zone) (dateParse : String → Option Int) (now : Int) (dom : Dom)
    (which : String) : Dom × Option String :=
  let offset : Int := if which = "next" then 1 else 0
  let filtered := filterByWeek z dateParse now (some (dom.allClasses.getD [])) offset
  match dom.schedule with
  | none =>
    let r := renderSchedule dom (some filtered)
    (setPageTitle r.1 which, r.2)
  | some container =>
    let container :=
      { container with classList := classListAdd container.classList "is-fading" }
    let dom := { dom with schedule := some container }
    let dom := setPageTitle dom which
    match renderSchedule dom (some filtered) with
    | (dom, some err) => (dom, some err)
    | (dom, none) =>
      ({ dom with schedule := dom.schedule.map (fun c =>
          { c with classList := classListRemove c.classList "is-fading" }) }, none)

/-- The number of children of `#schedule` with the class `name`; 0 when the
element is absent. -/
def countClass (dom : Dom) (name : String) : Nat :=
  match dom.schedule with
  | none => 0
  | some c => (c.children.filter (fun e => e.className == name)).length

/-- A page whose `#schedule` still shows one card of an earlier rendering and
whose cache holds no course. -/
def staleDom : Dom :=
  { schedule := some
      { children := [courseCard (courseWithDates (some "2026-01-05") none)], classList := [] }
    pageTitle := some "本周课表"
    currentTab := some { count := some { textContent := "0", display := "none" },
                         ariaLabel := none }
    nextTab := some { count := some { textContent := "0", display := "none" },
                      ariaLabel := none }
    allClasses := some [] }

/-- The four style class names. -/
def styleClasses : List String :=
  ["status-ongoing", "status-planned", "status-completed", "status-cancelled"]

/-- The keyword groups of the specification, in its order, each with its class:
in progress, planned or not started, completed, cancelled. -/
def keywordGroups : List (List String × String) :=
  [(["进行"], "status-ongoing"), (["计划", "未开始"], "status-planned"),
    (["完成"], "status-completed"), (["取消"], "status-cancelled")]

/-- The keyword rule in the words of the specification: the class of the first
group one of whose keywords occurs in the text, and the planned class when no
keyword occurs. -/
def specKeywordClass (text : List Char) : String :=
  match keywordGroups.find? (fun g => g.1.any (fun k => containsSub k.toList text)) with
  | some g => g.2
  | none => "status-planned"

/-- The calendar day `D` is sound in the zone: its midnight `D * msPerDay` and
its last millisecond are local times that exist (the instant of either has that
very local time), the instants whose local time is at or after the midnight are
those from its instant on, and the instants whose local time is at or before
the last millisecond are those up to its instant. Every day is sound in a zone
of fixed offset; in a zone with transitions a day is sound unless a transition
skips or repeats its midnight or its last millisecond. -/
def Zone.SoundDay (z : Zone) (D : Int) : Prop :=
  LocalTime z (UTC z (D * msPerDay)) = D * msPerDay ∧
  LocalTime z (UTC z (D * msPerDay + 86399999)) = D * msPerDay + 86399999 ∧
  (∀ t : Int, D * msPerDay ≤ LocalTime z t ↔ UTC z (D * msPerDay) ≤ t) ∧
  (∀ t : Int, LocalTime z t ≤ D * msPerDay + 86399999 ↔ t ≤ UTC z (D * msPerDay + 86399999))

/-- A zone whose transitions are small: reading a local time and converting the
instant back moves it by at most a day, and no two offsets by which local times
are read differ by more than two days. Every zone of fixed offset is so,
whatever the offset, and so is every zone whose offsets lie within a day of
each other. -/
def Zone.Tame (z : Zone) : Prop :=
  (∀ l : Int, l - msPerDay ≤ LocalTime z (UTC z l) ∧ LocalTime z (UTC z l) ≤ l + msPerDay) ∧
  (∀ l k : Int, z.localOffset l - z.localOffset k ≤ 2 * msPerDay)

/-- A zone eight hours east of UTC with no transition. -/
def utcPlus8 : Zone := Zone.fixed 28800000

/-- The zone of New York around the start of daylight saving in 2026: five hours
west of UTC until 8 March 2026, 07:00 UTC (02:00 local time), four hours west
from then on. -/
def newYork2026 : Zone := Zone.transition (-18000000) (-14400000) 1772953200000

/-- The zone of Shanghai around the start of daylight saving in 1988: eight hours
east of UTC until 16 April 1988, 18:00 UTC (02:00 local time on 17 April), nine
hours east from then on. -/
def shanghai1988 : Zone := Zone.transition 28800000 32400000 577216800000

/-- The zone of Tehran around the start of daylight saving in 2021: three and
a half hours east of UTC until 21 March 2021, 20:30 UTC (midnight of Monday
22 March, local time), four and a half hours east from then on. -/
def tehran2021 : Zone := Zone.transition 12600000 16200000 1616358600000

/-- The day number of the local midnight that `getWeekRange` builds from the
calendar fields of `now` (its `d`). -/
def anchorDay (z : Zone) (now : Int) : Int :=
  let y := getFullYear z now
  MakeDay (if 0 ≤ y ∧ y ≤ 99 then 1900 + y else y) (getMonth z now) (getDate z now)

/-! ## Facts about the number model -/

theorem roundHalfEven_error (x : ℚ) : |(roundHalfEven x : ℚ) - x| ≤ 1 / 2 := by
  have h1 := Int.floor_le x
  have h2 := Int.lt_floor_add_one x
  unfold roundHalfEven
  rw [abs_le]
  split_ifs <;> push_cast <;> constructor <;> linarith

theorem roundHalfEven_intCast (m : Int) : roundHalfEven (m : ℚ) = m := by
  unfold roundHalfEven
  simp

theorem roundHalfEven_nonneg (x : ℚ) (h : 0 ≤ x) : 0 ≤ roundHalfEven x := by
  have h1 : 0 ≤ ⌊x⌋ := Int.floor_nonneg.mpr h
  unfold roundHalfEven
  split_ifs <;> omega

theorem toDouble_nonneg (x : ℚ) (h : 0 ≤ x) : 0 ≤ toDouble x := by
  unfold toDouble
  split_ifs
  · exact le_refl _
  · have hp : (0 : ℚ) < (2 : ℚ) ^ doubleExponent x := by positivity
    have h1 : 0 ≤ roundHalfEven (x / (2 : ℚ) ^ doubleExponent x) :=
      roundHalfEven_nonneg _ (div_nonneg h hp.le)
    have h2 : (0 : ℚ) ≤ (roundHalfEven (x / (2 : ℚ) ^ doubleExponent x) : ℚ) := by
      exact_mod_cast h1
    positivity

theorem scaled_error (x p : ℚ) (hp : 0 < p) :
    |(roundHalfEven (x / p) : ℚ) * p - x| ≤ p / 2 := by
  have e := roundHalfEven_error (x / p)
  have h : (roundHalfEven (x / p) : ℚ) * p - x = ((roundHalfEven (x / p) : ℚ) - x / p) * p := by
    field_simp
  rw [h, abs_mul, abs_of_pos hp]
  calc |(roundHalfEven (x / p) : ℚ) - x / p| * p ≤ 1 / 2 * p :=
        mul_le_mul_of_nonneg_right e hp.le
    _ = p / 2 := by ring

/-- The rounding error of `toDouble` is at most half a unit in the last place. -/
theorem toDouble_error (x : ℚ) : |toDouble x - x| ≤ (2 : ℚ) ^ doubleExponent x / 2 := by
  have hp : (0 : ℚ) < (2 : ℚ) ^ doubleExponent x := by positivity
  unfold toDouble
  split_ifs with h0
  · subst h0
    simp only [sub_zero, abs_zero]
    positivity
  · exact scaled_error x _ hp

/-- Below `2 ^ k` in magnitude the unit in the last place is at most `2 ^ (k - 53)`. -/
theorem doubleExponent_le (x : ℚ) (k : Int) (hk : -1021 ≤ k) (hx0 : x ≠ 0)
    (hx : |x| < (2 : ℚ) ^ k) : doubleExponent x ≤ k - 53 := by
  have hpos : 0 < |x| := abs_pos.mpr hx0
  have h := (Int.lt_zpow_iff_log_lt (R := ℚ) (b := 2) (by norm_num) hpos (x := k)).mp
    (by exact_mod_cast hx)
  unfold doubleExponent
  omega

/-- A multiple of a power of two at or above the unit in the last place is a
double: `toDouble` returns it unchanged. -/
theorem toDouble_exact (x : ℚ) (m j : Int) (hm : x = m * (2 : ℚ) ^ j)
    (hj : doubleExponent x ≤ j) : toDouble x = x := by
  unfold toDouble
  split_ifs with h0
  · exact h0.symm
  · obtain ⟨k, hk⟩ : ∃ k : ℕ, j = doubleExponent x + k :=
      ⟨(j - doubleExponent x).toNat, by omega⟩
    have h2 : (2 : ℚ) ≠ 0 := by norm_num
    have hp : (0 : ℚ) < (2 : ℚ) ^ doubleExponent x := by positivity
    have hq : x / (2 : ℚ) ^ doubleExponent x = ((m * 2 ^ k : Int) : ℚ) := by
      rw [div_eq_iff hp.ne']
      nth_rewrite 1 [hm]
      rw [hk, zpow_add₀ h2, zpow_natCast]
      push_cast
      ring
    rw [hq, roundHalfEven_intCast, ← hq]
    field_simp

theorem toDouble_intCast (m : Int) (h : |(m : ℚ)| < (2 : ℚ) ^ (53 : Int)) :
    toDouble (m : ℚ) = m := by
  by_cases h0 : (m : ℚ) = 0
  · rw [h0]; simp [toDouble]
  · apply toDouble_exact (m : ℚ) m 0 (by simp)
    have := doubleExponent_le (m : ℚ) 53 (by norm_num) h0 h
    omega

/-! ## Calendar facts -/

theorem div4_step (y : Int) :
    (y + 1 - 1969) / 4 = (y - 1969) / 4 + (if y % 4 = 0 then 1 else 0) := by
  split_ifs <;> omega

theorem div100_step (y : Int) :
    (y + 1 - 1901) / 100 = (y - 1901) / 100 + (if y % 100 = 0 then 1 else 0) := by
  split_ifs <;> omega

theorem div400_step (y : Int) :
    (y + 1 - 1601) / 400 = (y - 1601) / 400 + (if y % 400 = 0 then 1 else 0) := by
  split_ifs <;> omega

theorem dayFromYear_succ (y : Int) :
    DayFromYear (y + 1) = DayFromYear y + 365 + leapDay y := by
  unfold DayFromYear leapDay InLeapYear
  rw [div4_step, div100_step, div400_step]
  have h1 : y % 100 = 0 → y % 4 = 0 := by omega
  have h2 : y % 400 = 0 → y % 100 = 0 := by omega
  split_ifs <;> simp_all <;> omega

theorem dayFromYear_bounds (y : Int) :
    146097 * (y - 1970) - 506 ≤ 400 * DayFromYear y ∧
      400 * DayFromYear y ≤ 146097 * (y - 1970) + 589 := by
  unfold DayFromYear
  omega

theorem yearFromDay_spec (d : Int) :
    DayFromYear (YearFromDay d) ≤ d ∧ d < DayFromYear (YearFromDay d + 1) := by
  unfold YearFromDay
  simp only
  generalize hy : 1970 + d * 400 / 146097 = y0
  have b1 := dayFromYear_bounds (y0 - 1)
  have b2 := dayFromYear_bounds (y0 + 1 + 1)
  split_ifs with h1 h2
  · rw [sub_add_cancel]
    exact ⟨by omega, h1⟩
  · exact ⟨h2, by omega⟩
  · exact ⟨by omega, by omega⟩

theorem monthFromDayWithinYear_range (l : Int) (dwy : Int) :
    0 ≤ monthFromDayWithinYear l dwy ∧ monthFromDayWithinYear l dwy ≤ 11 := by
  unfold monthFromDayWithinYear
  omega

theorem monthFromTime_range (t : Int) : 0 ≤ MonthFromTime t ∧ MonthFromTime t ≤ 11 :=
  monthFromDayWithinYear_range _ _

/-- Rebuilding a day from the calendar fields of `t` with another date `x`
moves the day of `t` by `x - DateFromTime t`. -/
theorem makeDay_fields (t x : Int) :
    MakeDay (YearFromTime t) (MonthFromTime t) x = Day t - DateFromTime t + x := by
  have hm := monthFromTime_range t
  have h1 : MonthFromTime t / 12 = 0 := by omega
  have h2 : MonthFromTime t % 12 = MonthFromTime t := by omega
  unfold MakeDay
  simp only [h1, h2, add_zero]
  unfold DateFromTime DayWithinYear
  omega

theorem leapDay_range (y : Int) : leapDay y = 0 ∨ leapDay y = 1 := by
  unfold leapDay
  split_ifs <;> simp

/-- The day of the month is between 1 and 31. -/
theorem dateFromTime_range (t : Int) : 1 ≤ DateFromTime t ∧ DateFromTime t ≤ 31 := by
  obtain ⟨h1, h2⟩ := yearFromDay_spec (Day t)
  rw [dayFromYear_succ] at h2
  have hl := leapDay_range (YearFromDay (Day t))
  unfold DateFromTime MonthFromTime DayWithinYear YearFromTime
  generalize leapDay (YearFromDay (Day t)) = l at *
  generalize DayFromYear (YearFromDay (Day t)) = y0 at *
  generalize Day t = d at *
  unfold monthFromDayWithinYear daysBeforeMonth
  rcases hl with hl | hl <;> subst hl <;> omega

/-- The epoch, 1 January 1970, was a Thursday; 29 February 2000 was a Tuesday. -/
theorem calendar_samples :
    (YearFromTime 0, MonthFromTime 0, DateFromTime 0, WeekDay 0) = (1970, 0, 1, 4) ∧
    (YearFromTime 951782400000, MonthFromTime 951782400000, DateFromTime 951782400000,
      WeekDay 951782400000) = (2000, 1, 29, 2) ∧
    (YearFromTime (-1), MonthFromTime (-1), DateFromTime (-1), WeekDay (-1)) =
      (1969, 11, 31, 3) := by
  decide

theorem day_makeDate (D tm : Int) (h0 : 0 ≤ tm) (h1 : tm < 86400000) :
    Day (MakeDate D tm) = D := by
  unfold Day MakeDate msPerDay
  omega

theorem timeWithinDay_makeDate (D tm : Int) (h0 : 0 ≤ tm) (h1 : tm < 86400000) :
    TimeWithinDay (MakeDate D tm) = tm := by
  unfold TimeWithinDay MakeDate msPerDay
  omega

/-! ## Time zones -/

/-- Every day is sound in a zone of fixed offset. -/
theorem soundDay_fixed (tz D : Int) : (Zone.fixed tz).SoundDay D := by
  simp only [Zone.SoundDay, LocalTime, UTC, Zone.fixed]
  refine ⟨by omega, by omega, fun t => by omega, fun t => by omega⟩

/-- Every day is sound in the zone `newYork2026`, whose transition skips the
hour from 02:00 to 03:00 on 8 March 2026. -/
theorem soundDay_newYork2026 (D : Int) : newYork2026.SoundDay D := by
  have hm : max (-18000000 : Int) (-14400000) = -14400000 := by decide
  simp only [Zone.SoundDay, LocalTime, UTC, newYork2026, Zone.transition, hm, msPerDay]
  refine ⟨?_, ?_, fun t => ?_, fun t => ?_⟩
  · split_ifs <;> omega
  · split_ifs <;> omega
  · split_ifs <;> omega
  · split_ifs <;> omega

/-- Every zone of fixed offset is tame. -/
theorem tame_fixed (tz : Int) : (Zone.fixed tz).Tame := by
  refine ⟨fun l => ?_, fun l k => ?_⟩ <;>
    simp only [LocalTime, UTC, Zone.fixed, msPerDay] <;> omega

/-- A zone with one transition between offsets at most a day apart is tame. -/
theorem tame_transition (a b T : Int) (h1 : a - b ≤ 86400000) (h2 : b - a ≤ 86400000) :
    (Zone.transition a b T).Tame := by
  refine ⟨fun l => ?_, fun l k => ?_⟩ <;>
    simp only [LocalTime, UTC, Zone.transition, msPerDay] <;> split_ifs <;> omega

/-- A zone whose offsets lie within a day of each other is tame. -/
theorem tame_of_close (z : Zone)
    (h1 : ∀ t l : Int, z.utcOffset t - z.localOffset l ≤ msPerDay ∧
      z.localOffset l - z.utcOffset t ≤ msPerDay)
    (h2 : ∀ l k : Int, z.localOffset l - z.localOffset k ≤ msPerDay) : z.Tame := by
  refine ⟨fun l => ?_, fun l k => ?_⟩
  · have h := h1 (UTC z l) l
    simp only [LocalTime, UTC] at *
    omega
  · have h := h2 l k
    unfold msPerDay at *
    omega

theorem localTime_utc_midnight (z : Zone) (D : Int) (h : z.SoundDay D) :
    LocalTime z (UTC z (MakeDate D 0)) = MakeDate D 0 := by
  simpa [MakeDate] using h.1

theorem localTime_utc_dayEnd (z : Zone) (D : Int) (h : z.SoundDay D) :
    LocalTime z (UTC z (MakeDate D 86399999)) = MakeDate D 86399999 := by
  simpa [MakeDate] using h.2.1

/-! ## `getWeekRange` (C2) -/

/-- The closed form of `getWeekRange`: from the anchor day `A`, the start is the
instant of the local midnight of day `A - (A + 3) % 7 + 7 * offset` and the end
is the instant of the last millisecond of the sixth day after it, when the
anchor day and these two days are sound. -/
theorem getWeekRange_eq (z : Zone) (now offset : Int)
    (hA : z.SoundDay (anchorDay z now))
    (hM : z.SoundDay (anchorDay z now - (anchorDay z now + 3) % 7 + offset * 7))
    (hS : z.SoundDay (anchorDay z now - (anchorDay z now + 3) % 7 + offset * 7 + 6)) :
    getWeekRange z now offset =
      { start := UTC z (MakeDate (anchorDay z now - (anchorDay z now + 3) % 7 + offset * 7) 0),
        «end» := UTC z (MakeDate (anchorDay z now - (anchorDay z now + 3) % 7 + offset * 7 + 6)
          86399999) } := by
  unfold getWeekRange
  have hT : MakeTime 0 0 0 0 = 0 := by decide
  have hT2 : MakeTime 23 59 59 999 = 86399999 := by decide
  simp only [newDateLocal, setDate, setHours, getDate, getDay, makeDay_fields, hT, hT2]
  have hA2 : MakeDay (if 0 ≤ getFullYear z now ∧ getFullYear z now ≤ 99
      then 1900 + getFullYear z now else getFullYear z now) (getMonth z now)
      (DateFromTime (LocalTime z now)) = anchorDay z now := rfl
  rw [hA2]
  have dm0 : ∀ D : Int, Day (MakeDate D 0) = D :=
    fun D => day_makeDate D 0 (by omega) (by omega)
  have tw0 : ∀ D : Int, TimeWithinDay (MakeDate D 0) = 0 :=
    fun D => timeWithinDay_makeDate D 0 (by omega) (by omega)
  have key : ∀ a x b c : Int, a - x + (x - b + c) = a - b + c := by
    intros; ring
  have wk : ((anchorDay z now + 4) % 7 + 6) % 7 = (anchorDay z now + 3) % 7 := by omega
  simp only [localTime_utc_midnight z _ hA, dm0, tw0, WeekDay, key, wk]
  simp only [localTime_utc_midnight z _ hM, dm0, tw0]
  have key2 : ∀ a x : Int, a - x + (x + 6) = a + 6 := by
    intros; ring
  simp only [key2, localTime_utc_midnight z _ hS, dm0]

/-- Outside the years 0 to 99 the anchor day is the local day of `now`. -/
theorem anchorDay_eq (z : Zone) (now : Int)
    (h : ¬ (0 ≤ getFullYear z now ∧ getFullYear z now ≤ 99)) :
    anchorDay z now = Day (LocalTime z now) := by
  unfold anchorDay
  simp only
  rw [if_neg h]
  unfold getFullYear getMonth getDate
  rw [makeDay_fields]
  omega

/-- The week range never ends before it starts, in a tame zone. -/
theorem weekRangeTs_le (z : Zone) (hz : z.Tame) (now offset : Int) :
    (getWeekRangeTs z now offset).startTs ≤ (getWeekRangeTs z now offset).endTs := by
  have hT : MakeTime 0 0 0 0 = 0 := by decide
  have hT2 : MakeTime 23 59 59 999 = 86399999 := by decide
  simp only [getWeekRangeTs, getWeekRange, newDateLocal, setDate, setHours, getDate, getDay,
    makeDay_fields, hT, hT2]
  generalize Day (LocalTime z (UTC z (MakeDate _ (TimeWithinDay _)))) = D0
  generalize hlt : LocalTime z (UTC z (MakeDate D0 0)) = lt
  have e0 := hz.1 (MakeDate D0 0)
  rw [hlt] at e0
  generalize DateFromTime lt = x
  generalize hl1 : MakeDate (Day lt - x + (x + 6)) (TimeWithinDay lt) = l1
  have e1 := hz.1 l1
  generalize hlt1 : LocalTime z (UTC z l1) = lt1 at e1
  have o := hz.2 (MakeDate (Day lt1) 86399999) (MakeDate D0 0)
  simp only [UTC]
  generalize z.localOffset (MakeDate (Day lt1) 86399999) = o2 at *
  generalize z.localOffset (MakeDate D0 0) = o0 at *
  unfold MakeDate Day TimeWithinDay msPerDay at *
  omega

/-- C2, amended. Let `now` be a clock reading whose local year is not one of 0
to 99, in a zone where every day from 6 days before to 13 days after the local
day of `now` is sound. Then `getWeekRange(0)` starts on the Monday 00:00:00.000
and ends on the Sunday 23:59:59.999 (local time) of the week containing `now`:
the start is at most `now`, the end is at least `now`, and the end lies six
calendar days after the start. `getWeekRange(1)` is the next week: in local
time its start and end are exactly seven days after those of `getWeekRange(0)`,
and as instants they are seven days after them less the change of the zone's
offset in between. -/
theorem getWeekRange_current_and_next (z : Zone) (now : Int)
    (hz : ∀ D : Int, Day (LocalTime z now) - 6 ≤ D → D ≤ Day (LocalTime z now) + 13 →
      z.SoundDay D)
    (hy : ¬ (0 ≤ getFullYear z now ∧ getFullYear z now ≤ 99)) :
    WeekDay (LocalTime z (getWeekRange z now 0).start) = 1 ∧
    TimeWithinDay (LocalTime z (getWeekRange z now 0).start) = 0 ∧
    WeekDay (LocalTime z (getWeekRange z now 0).«end») = 0 ∧
    TimeWithinDay (LocalTime z (getWeekRange z now 0).«end») = 86399999 ∧
    (getWeekRange z now 0).start ≤ now ∧ now ≤ (getWeekRange z now 0).«end» ∧
    Day (LocalTime z (getWeekRange z now 0).«end») =
      Day (LocalTime z (getWeekRange z now 0).start) + 6 ∧
    LocalTime z (getWeekRange z now 1).start =
      LocalTime z (getWeekRange z now 0).start + 7 * msPerDay ∧
    LocalTime z (getWeekRange z now 1).«end» =
      LocalTime z (getWeekRange z now 0).«end» + 7 * msPerDay ∧
    (getWeekRange z now 1).start = (getWeekRange z now 0).start + 7 * msPerDay -
      (z.localOffset (LocalTime z (getWeekRange z now 1).start) -
        z.localOffset (LocalTime z (getWeekRange z now 0).start)) ∧
    (getWeekRange z now 1).«end» = (getWeekRange z now 0).«end» + 7 * msPerDay -
      (z.localOffset (LocalTime z (getWeekRange z now 1).«end») -
        z.localOffset (LocalTime z (getWeekRange z now 0).«end»)) := by
  have hA := anchorDay_eq z now hy
  have g0 := getWeekRange_eq z now 0 (by rw [hA]; exact hz _ (by omega) (by omega))
    (by rw [hA]; exact hz _ (by omega) (by omega)) (by rw [hA]; exact hz _ (by omega) (by omega))
  have g1 := getWeekRange_eq z now 1 (by rw [hA]; exact hz _ (by omega) (by omega))
    (by rw [hA]; exact hz _ (by omega) (by omega)) (by rw [hA]; exact hz _ (by omega) (by omega))
  rw [g0, g1, hA]
  have m0 := hz (Day (LocalTime z now) - (Day (LocalTime z now) + 3) % 7 + 0 * 7)
    (by omega) (by omega)
  have m6 := hz (Day (LocalTime z now) - (Day (LocalTime z now) + 3) % 7 + 0 * 7 + 6)
    (by omega) (by omega)
  have m7 := hz (Day (LocalTime z now) - (Day (LocalTime z now) + 3) % 7 + 1 * 7)
    (by omega) (by omega)
  have m13 := hz (Day (LocalTime z now) - (Day (LocalTime z now) + 3) % 7 + 1 * 7 + 6)
    (by omega) (by omega)
  simp only [localTime_utc_midnight z _ m0, localTime_utc_dayEnd z _ m6,
    localTime_utc_midnight z _ m7, localTime_utc_dayEnd z _ m13]
  generalize hD : Day (LocalTime z now) = D at *
  unfold Day msPerDay at hD
  have hs : UTC z (MakeDate (D - (D + 3) % 7 + 0 * 7) 0) ≤ now := by
    have c1 := (m0.2.2.1 now).mp (by unfold msPerDay; omega)
    simpa [MakeDate] using c1
  have he : now ≤ UTC z (MakeDate (D - (D + 3) % 7 + 0 * 7 + 6) 86399999) := by
    have c2 := (m6.2.2.2 now).mp (by unfold msPerDay; omega)
    simpa [MakeDate] using c2
  refine ⟨?_, ?_, ?_, ?_, hs, he, ?_, ?_, ?_, ?_, ?_⟩ <;>
    simp only [UTC, WeekDay, TimeWithinDay, Day, MakeDate, msPerDay] <;> omega

/-- Witness of the amended C2 in the zone `newYork2026`, on Wednesday 4 March
2026, 12:00 UTC: the week that ends on the day daylight saving starts. -/
theorem getWeekRange_current_and_next_witness :
    (∀ D : Int, Day (LocalTime newYork2026 1772625600000) - 6 ≤ D →
      D ≤ Day (LocalTime newYork2026 1772625600000) + 13 → newYork2026.SoundDay D) ∧
    ¬ (0 ≤ getFullYear newYork2026 1772625600000 ∧
      getFullYear newYork2026 1772625600000 ≤ 99) ∧
    (WeekDay (LocalTime newYork2026 (getWeekRange newYork2026 1772625600000 0).start) = 1 ∧
    TimeWithinDay (LocalTime newYork2026 (getWeekRange newYork2026 1772625600000 0).start) = 0 ∧
    WeekDay (LocalTime newYork2026 (getWeekRange newYork2026 1772625600000 0).«end») = 0 ∧
    TimeWithinDay (LocalTime newYork2026 (getWeekRange newYork2026 1772625600000 0).«end») =
      86399999 ∧
    (getWeekRange newYork2026 1772625600000 0).start ≤ 1772625600000 ∧
    1772625600000 ≤ (getWeekRange newYork2026 1772625600000 0).«end» ∧
    Day (LocalTime newYork2026 (getWeekRange newYork2026 1772625600000 0).«end») =
      Day (LocalTime newYork2026 (getWeekRange newYork2026 1772625600000 0).start) + 6 ∧
    LocalTime newYork2026 (getWeekRange newYork2026 1772625600000 1).start =
      LocalTime newYork2026 (getWeekRange newYork2026 1772625600000 0).start + 7 * msPerDay ∧
    LocalTime newYork2026 (getWeekRange newYork2026 1772625600000 1).«end» =
      LocalTime newYork2026 (getWeekRange newYork2026 1772625600000 0).«end» + 7 * msPerDay ∧
    (getWeekRange newYork2026 1772625600000 1).start =
      (getWeekRange newYork2026 1772625600000 0).start + 7 * msPerDay -
      (newYork2026.localOffset (LocalTime newYork2026
          (getWeekRange newYork2026 1772625600000 1).start) -
        newYork2026.localOffset (LocalTime newYork2026
          (getWeekRange newYork2026 1772625600000 0).start)) ∧
    (getWeekRange newYork2026 1772625600000 1).«end» =
      (getWeekRange newYork2026 1772625600000 0).«end» + 7 * msPerDay -
      (newYork2026.localOffset (LocalTime newYork2026
          (getWeekRange newYork2026 1772625600000 1).«end») -
        newYork2026.localOffset (LocalTime newYork2026
          (getWeekRange newYork2026 1772625600000 0).«end»))) :=
  ⟨fun D _ _ => soundDay_newYork2026 D, by decide,
    getWeekRange_current_and_next newYork2026 1772625600000
      (fun D _ _ => soundDay_newYork2026 D) (by decide)⟩

/-- C2 as stated fails in three ways. In the zone `newYork2026`, on Wednesday
4 March 2026, the week of `getWeekRange(0)` ends at the instant 1773028799999
and the start of `getWeekRange(1)` is 6 days and 23 hours, not 7 days, after the
start of `getWeekRange(0)`. For a clock reading in the year 50, which the `Date`
constructor reads as 1950, the range of `getWeekRange(0)` starts after today.
In the zone `tehran2021`, on Wednesday 24 March 2021, the start of
`getWeekRange(0)` is Monday 22 March at 01:00:00.000 local time, the midnight
of that Monday being skipped by the start of daylight saving. -/
theorem getWeekRange_not_seven_days :
    getWeekRange newYork2026 1772625600000 0 =
      { start := 1772427600000, «end» := 1773028799999 } ∧
    getWeekRange newYork2026 1772625600000 1 =
      { start := 1773028800000, «end» := 1773633599999 } ∧
    (getWeekRange newYork2026 1772625600000 1).start ≠
      (getWeekRange newYork2026 1772625600000 0).start + 7 * msPerDay ∧
    (getWeekRange newYork2026 1772625600000 1).start =
      (getWeekRange newYork2026 1772625600000 0).start + 6 * msPerDay + 23 * 3600000 ∧
    getFullYear (Zone.fixed 0) (-60580656000000) = 50 ∧
    ¬ ((getWeekRange (Zone.fixed 0) (-60580656000000) 0).start ≤ -60580656000000) ∧
    getWeekRange tehran2021 1616587200000 0 =
      { start := 1616358600000, «end» := 1616959799999 } ∧
    WeekDay (LocalTime tehran2021 (getWeekRange tehran2021 1616587200000 0).start) = 1 ∧
    TimeWithinDay (LocalTime tehran2021 (getWeekRange tehran2021 1616587200000 0).start) =
      3600000 := by
  decide

/-! ## Date-only strings (C10) -/

theorem isDigit_ne_dash (c : Char) (h : c.isDigit = true) : c ≠ '-' := by
  rintro rfl
  revert h
  decide

theorem digitsValue_isSome (cs : List Char) (h : ∀ c ∈ cs, c.isDigit = true) (acc : Int) :
    ∃ v, digitsValue acc cs = some v := by
  induction cs generalizing acc with
  | nil => exact ⟨acc, rfl⟩
  | cons c cs ih =>
    have hc := h c (List.mem_cons_self _ _)
    simp only [digitsValue, hc, if_true]
    exact ih (fun x hx => h x (List.mem_cons_of_mem _ hx)) _

theorem splitYMD_of_dateOnly (s : String) (h : isDateOnlyString s = true) :
    ∃ y m d, splitYMD s = some (y, m, d) := by
  unfold isDateOnlyString at h
  split at h
  · rename_i y1 y2 y3 y4 s1 m1 m2 s2 d1 d2 hs
    simp only [Bool.and_eq_true, beq_iff_eq] at h
    obtain ⟨⟨⟨⟨⟨⟨⟨⟨⟨hy1, hy2⟩, hy3⟩, hy4⟩, hs1⟩, hm1⟩, hm2⟩, hs2⟩, hd1⟩, hd2⟩ := h
    subst hs1 hs2
    unfold splitYMD
    rw [hs]
    have n1 := isDigit_ne_dash _ hy1
    have n2 := isDigit_ne_dash _ hy2
    have n3 := isDigit_ne_dash _ hy3
    have n4 := isDigit_ne_dash _ hy4
    have n5 := isDigit_ne_dash _ hm1
    have n6 := isDigit_ne_dash _ hm2
    have n7 := isDigit_ne_dash _ hd1
    have n8 := isDigit_ne_dash _ hd2
    simp only [splitOn, n1, n2, n3, n4, n5, n6, n7, n8, if_false, if_true, List.map, jsNumber,
      digitsValue, hy1, hy2, hy3, hy4, hm1, hm2, hd1, hd2]
    exact ⟨_, _, _, rfl⟩
  · exact absurd h (by simp)

theorem dateOnly_ne_empty (s : String) (h : isDateOnlyString s = true) : s ≠ "" := by
  rintro rfl
  revert h
  decide

/-- C10, amended. For every date-only string there is a local midnight `l` such
that `toLocalStartOfDayTs` is the instant of `l` and `toLocalEndOfDayTs` the
instant of the local time 86399999 ms later, the last millisecond of the same
calendar day; these are what `normalizeToTimestamp` returns for `asEnd = false`
and `asEnd = true`. Their difference is 86399999 ms less the change of the
zone's offset between the two local times: the first is smaller whenever that
change is less than 86399999 ms, and when the offset is the same at both they
are exactly 86399999 ms apart. -/
theorem dateOnly_day_span (z : Zone) (dateParse : String → Option Int) (s : String)
    (h : isDateOnlyString s = true) :
    ∃ l a b : Int, TimeWithinDay l = 0 ∧
      toLocalStartOfDayTs z s = some a ∧ toLocalEndOfDayTs z s = some b ∧
      a = UTC z l ∧ b = UTC z (l + 86399999) ∧
      b - a = 86399999 - (z.localOffset (l + 86399999) - z.localOffset l) ∧
      (z.localOffset (l + 86399999) - z.localOffset l < 86399999 → a < b) ∧
      (z.localOffset (l + 86399999) = z.localOffset l → a < b ∧ b - a = 86399999) ∧
      normalizeToTimestamp z dateParse (some s) false = some a ∧
      normalizeToTimestamp z dateParse (some s) true = some b := by
  obtain ⟨y, m, d, hs⟩ := splitYMD_of_dateOnly s h
  have hne := dateOnly_ne_empty s h
  have hT : MakeTime 0 0 0 0 = 0 := by decide
  have hT2 : MakeTime 23 59 59 999 = 86399999 := by decide
  generalize hD : MakeDay (if 0 ≤ y ∧ y ≤ 99 then 1900 + y else y) (m - 1) d = D
  have e1 : newDateLocal z y (m - 1) d 0 0 0 0 = UTC z (MakeDate D 0) := by
    simp only [newDateLocal, hT, hD]
  have e2 : newDateLocal z y (m - 1) d 23 59 59 999 = UTC z (MakeDate D 0 + 86399999) := by
    simp only [newDateLocal, hT2, hD, MakeDate, add_zero]
  refine ⟨MakeDate D 0, UTC z (MakeDate D 0), UTC z (MakeDate D 0 + 86399999),
    timeWithinDay_makeDate D 0 (by omega) (by omega), ?_, ?_, rfl, rfl, ?_, ?_, ?_, ?_, ?_⟩
  · simp only [toLocalStartOfDayTs, hs, e1]
  · simp only [toLocalEndOfDayTs, hs, e2]
  · simp only [UTC]
    omega
  · intro ho
    simp only [UTC]
    omega
  · intro ho
    simp only [UTC, ho]
    omega
  · simp only [normalizeToTimestamp, hne, if_false, h, if_true, toLocalStartOfDayTs, hs,
      Bool.false_eq_true, e1]
  · simp only [normalizeToTimestamp, hne, if_false, h, if_true, toLocalEndOfDayTs, hs, e2]

/-- Witness of the amended C10 on the string 2024-01-15 in the zone `utcPlus8`. -/
theorem dateOnly_day_span_witness :
    isDateOnlyString "2024-01-15" = true ∧
    ∃ l a b : Int, TimeWithinDay l = 0 ∧
      toLocalStartOfDayTs utcPlus8 "2024-01-15" = some a ∧
      toLocalEndOfDayTs utcPlus8 "2024-01-15" = some b ∧
      a = UTC utcPlus8 l ∧ b = UTC utcPlus8 (l + 86399999) ∧
      b - a = 86399999 - (utcPlus8.localOffset (l + 86399999) - utcPlus8.localOffset l) ∧
      (utcPlus8.localOffset (l + 86399999) - utcPlus8.localOffset l < 86399999 → a < b) ∧
      (utcPlus8.localOffset (l + 86399999) = utcPlus8.localOffset l →
        a < b ∧ b - a = 86399999) ∧
      normalizeToTimestamp utcPlus8 (fun _ => none) (some "2024-01-15") false = some a ∧
      normalizeToTimestamp utcPlus8 (fun _ => none) (some "2024-01-15") true = some b :=
  ⟨by decide, dateOnly_day_span utcPlus8 (fun _ => none) "2024-01-15" (by decide)⟩

/-- C10 as stated fails on the day daylight saving starts: in the zone
`shanghai1988` the start and the end of the day 1988-04-17 are 82799999 ms
apart, 23 hours less one millisecond, and so are the two values of
`normalizeToTimestamp`. -/
theorem dateOnly_day_span_transition_day :
    isDateOnlyString "1988-04-17" = true ∧
    toLocalStartOfDayTs shanghai1988 "1988-04-17" = some 577209600000 ∧
    toLocalEndOfDayTs shanghai1988 "1988-04-17" = some 577292399999 ∧
    normalizeToTimestamp shanghai1988 (fun _ => none) (some "1988-04-17") false =
      some 577209600000 ∧
    normalizeToTimestamp shanghai1988 (fun _ => none) (some "1988-04-17") true =
      some 577292399999 ∧
    (577292399999 : Int) - 577209600000 = 82799999 ∧
    (577292399999 : Int) - 577209600000 ≠ 86399999 := by
  decide


/-! ## `filterByWeek` (C1, C3, C4) -/

/-- With a falsy value the second reading of the end is the first one. -/
theorem normalize_falsy (z : Zone) (dateParse : String → Option Int) (v : Option String)
    (h : truthy v = false) (asEnd : Bool) :
    normalizeToTimestamp z dateParse v asEnd = none := by
  cases v with
  | none => rfl
  | some s =>
    have hs : s = "" := by
      simpa [truthy] using h
    subst hs
    simp [normalizeToTimestamp]

/-- The end that `filterByWeek` hands to `overlapsTs` is the end value read as
an end bound. -/
theorem inWeek_end (z : Zone) (dateParse : String → Option Int) (v : Option String) :
    normalizeToTimestamp z dateParse (if truthy v then v else none) (truthy v) =
      normalizeToTimestamp z dateParse v true := by
  cases hv : truthy v
  · rw [normalize_falsy z dateParse v hv true]
    simp [normalizeToTimestamp]
  · simp

theorem inWeek_iff (z : Zone) (dateParse : String → Option Int) (w : WeekRangeTs)
    (item : Option Course) :
    inWeek z dateParse w item = true ↔ specIncluded z dateParse w item := by
  unfold inWeek specIncluded
  simp only [inWeek_end]
  cases hs : normalizeToTimestamp z dateParse (item.bind (·.dateStart)) false with
  | none => simp
  | some s =>
    cases he : normalizeToTimestamp z dateParse (item.bind (·.dateEnd)) true <;>
      simp [overlapsTs]

/-- C1. For every course list and week offset, `filterByWeek` keeps, in the
original order, exactly the records the specification includes: those whose
start resolves to a timestamp `s` with `s ≤ endTs` and `e ≥ startTs`, where `e`
is the resolved end and `s` itself when no end resolves. -/
theorem filterByWeek_spec (z : Zone) (dateParse : String → Option Int) (now : Int)
    (list : Option (List (Option Course))) (offset : Int) :
    ∃ keep : Option Course → Bool,
      (∀ item, keep item = true ↔
        specIncluded z dateParse (getWeekRangeTs z now offset) item) ∧
      filterByWeek z dateParse now list offset = (list.getD []).filter keep ∧
      (filterByWeek z dateParse now list offset).Sublist (list.getD []) :=
  ⟨inWeek z dateParse (getWeekRangeTs z now offset),
    fun item => inWeek_iff z dateParse _ item, rfl, List.filter_sublist _⟩

/-- C3. A record whose start resolves to `s` and that has no end is kept by
`filterByWeek` exactly when `startTs ≤ s ≤ endTs`; in particular it is kept
when `s` equals `startTs` or `endTs` of the target week. The zone is any tame
zone: every zone of fixed offset, and every zone with transitions whose offsets
lie within a day of each other. -/
theorem filterByWeek_start_only (z : Zone) (dateParse : String → Option Int) (now : Int)
    (list : List (Option Course)) (offset : Int) (item : Course) (s : Int)
    (hz : z.Tame)
    (hs : normalizeToTimestamp z dateParse item.dateStart false = some s)
    (he : truthy item.dateEnd = false) :
    (some item ∈ filterByWeek z dateParse now (some list) offset ↔
      some item ∈ list ∧ (getWeekRangeTs z now offset).startTs ≤ s ∧
        s ≤ (getWeekRangeTs z now offset).endTs) ∧
    (some item ∈ list →
      s = (getWeekRangeTs z now offset).startTs ∨ s = (getWeekRangeTs z now offset).endTs →
      some item ∈ filterByWeek z dateParse now (some list) offset) := by
  have hw := weekRangeTs_le z hz now offset
  have key : inWeek z dateParse (getWeekRangeTs z now offset) (some item) = true ↔
      (getWeekRangeTs z now offset).startTs ≤ s ∧ s ≤ (getWeekRangeTs z now offset).endTs := by
    have hn : normalizeToTimestamp z dateParse none false = none := rfl
    simp only [inWeek, Option.some_bind, hs, he, Bool.false_eq_true, if_false, hn,
      overlapsTs, Option.getD, Bool.and_eq_true, decide_eq_true_eq, ge_iff_le]
    exact And.comm
  have mem : some item ∈ filterByWeek z dateParse now (some list) offset ↔
      some item ∈ list ∧ inWeek z dateParse (getWeekRangeTs z now offset) (some item) = true := by
    simp [filterByWeek, List.mem_filter]
  refine ⟨by rw [mem, key], ?_⟩
  intro hl hb
  rw [mem, key]
  refine ⟨hl, ?_⟩
  rcases hb with hb | hb <;> omega

/-- Witness of C3: a record dated Monday 9 February 2026 with no end, in the
week of Wednesday 11 February 2026, in the zone `utcPlus8`. -/
theorem filterByWeek_start_only_witness :
    utcPlus8.Tame ∧
    normalizeToTimestamp utcPlus8 (fun _ => none)
      (courseWithDates (some "2026-02-09") none).dateStart false = some 1770566400000 ∧
    truthy (courseWithDates (some "2026-02-09") none).dateEnd = false ∧
    ((some (courseWithDates (some "2026-02-09") none) ∈
        filterByWeek utcPlus8 (fun _ => none) 1770768000000
          (some [some (courseWithDates (some "2026-02-09") none)]) 0 ↔
      some (courseWithDates (some "2026-02-09") none) ∈
          [some (courseWithDates (some "2026-02-09") none)] ∧
        (getWeekRangeTs utcPlus8 1770768000000 0).startTs ≤ 1770566400000 ∧
        1770566400000 ≤ (getWeekRangeTs utcPlus8 1770768000000 0).endTs) ∧
    (some (courseWithDates (some "2026-02-09") none) ∈
        [some (courseWithDates (some "2026-02-09") none)] →
      1770566400000 = (getWeekRangeTs utcPlus8 1770768000000 0).startTs ∨
        1770566400000 = (getWeekRangeTs utcPlus8 1770768000000 0).endTs →
      some (courseWithDates (some "2026-02-09") none) ∈
        filterByWeek utcPlus8 (fun _ => none) 1770768000000
          (some [some (courseWithDates (some "2026-02-09") none)]) 0)) :=
  ⟨tame_fixed 28800000, by decide, by decide,
    filterByWeek_start_only utcPlus8 (fun _ => none) 1770768000000
      [some (courseWithDates (some "2026-02-09") none)] 0
      (courseWithDates (some "2026-02-09") none) 1770566400000 (tame_fixed 28800000)
      (by decide) (by decide)⟩


/-- A record whose start yields no timestamp is dropped by `filterByWeek`, for
every clock reading and week offset. -/
theorem filterByWeek_drops_unresolved (z : Zone) (dateParse : String → Option Int)
    (now : Int) (list : Option (List (Option Course))) (offset : Int) (item : Option Course)
    (h : normalizeToTimestamp z dateParse (item.bind (·.dateStart)) false = none) :
    item ∉ filterByWeek z dateParse now list offset := by
  simp [filterByWeek, List.mem_filter, inWeek, h]

/-- A start that is missing, empty, or a string outside the date-only form that
the engine cannot parse yields no timestamp. -/
theorem normalize_unparseable (z : Zone) (dateParse : String → Option Int)
    (v : Option String)
    (h : v = none ∨ v = some "" ∨
      ∃ s, v = some s ∧ isDateOnlyString s = false ∧ dateParse s = none) :
    normalizeToTimestamp z dateParse v false = none := by
  rcases h with h | h | ⟨s, h, h1, h2⟩
  · subst h; rfl
  · subst h; simp [normalizeToTimestamp]
  · subst h
    simp only [normalizeToTimestamp, h1, h2, Bool.false_eq_true, if_false]
    split_ifs <;> rfl

/-- C4, evaluated: in the zone `utcPlus8`, in the week of Wednesday
11 February 2026, a record whose start is the string 2025-13-45 (month 13, day
45) is kept by `filterByWeek`: the string passes the date-only test and its
fields roll over to 14 February 2026. -/
theorem filterByWeek_keeps_rolled_over_date :
    isDateOnlyString "2025-13-45" = true ∧
    toLocalStartOfDayTs utcPlus8 "2025-13-45" = toLocalStartOfDayTs utcPlus8 "2026-02-14" ∧
    filterByWeek utcPlus8 (fun _ => none) 1770768000000
      (some [some (courseWithDates (some "2025-13-45") none)]) 0 =
    [some (courseWithDates (some "2025-13-45") none)] := by
  set_option maxRecDepth 100000 in
  decide

/-! ## The course record of the proxy (C8, C9) -/

theorem mathRound_bounds (x : ℚ) : (mathRound x : ℚ) - 1 / 2 ≤ x ∧ x < mathRound x + 1 / 2 := by
  unfold mathRound
  have h1 := Int.floor_le (x + 1 / 2)
  have h2 := Int.lt_floor_add_one (x + 1 / 2)
  constructor <;> linarith

theorem mathRound_eq (x : ℚ) (k : Int) (h1 : (k : ℚ) - 1 / 2 ≤ x) (h2 : x < k + 1 / 2) :
    mathRound x = k := by
  unfold mathRound
  rw [Int.floor_eq_iff]
  constructor <;> linarith

theorem mathRound_div_bounds (d : Int) :
    60000 * mathRound ((d : ℚ) / 60000) - 30000 ≤ d ∧
      d < 60000 * mathRound ((d : ℚ) / 60000) + 30000 := by
  obtain ⟨h1, h2⟩ := mathRound_bounds ((d : ℚ) / 60000)
  have e : (d : ℚ) = 60000 * ((d : ℚ) / 60000) := by ring
  constructor
  · have : ((60000 * mathRound ((d : ℚ) / 60000) - 30000 : Int) : ℚ) ≤ (d : ℚ) := by
      push_cast
      linarith
    exact_mod_cast this
  · have : (d : ℚ) < ((60000 * mathRound ((d : ℚ) / 60000) + 30000 : Int) : ℚ) := by
      push_cast
      linarith
    exact_mod_cast this

/-- For a duration below `2 ^ 36` minutes the double quotient by 60000 rounds to
the same whole minute as the exact quotient. -/
theorem mathRound_toDouble_div (d : Int) (h0 : 0 ≤ d) (h1 : d < 60000 * 2 ^ 36) :
    mathRound (toDouble ((d : ℚ) / 60000)) = mathRound ((d : ℚ) / 60000) := by
  obtain ⟨b1, b2⟩ := mathRound_div_bounds d
  generalize mathRound ((d : ℚ) / 60000) = k at b1 b2
  by_cases hd : d = 0
  · subst hd
    have hk : k = 0 := by omega
    subst hk
    norm_num [toDouble, mathRound]
  have hx0 : (d : ℚ) / 60000 ≠ 0 := by
    have : (d : ℚ) ≠ 0 := by exact_mod_cast hd
    positivity
  have hdq : (0 : ℚ) ≤ (d : ℚ) := by exact_mod_cast h0
  have hxlt : |(d : ℚ) / 60000| < (2 : ℚ) ^ (36 : Int) := by
    rw [abs_of_nonneg (by positivity)]
    have : (d : ℚ) < 60000 * 2 ^ 36 := by exact_mod_cast h1
    rw [div_lt_iff₀ (by norm_num)]
    norm_num at this ⊢
    linarith
  have he := doubleExponent_le _ 36 (by norm_num) hx0 hxlt
  have herr := toDouble_error ((d : ℚ) / 60000)
  have hpow : (2 : ℚ) ^ doubleExponent ((d : ℚ) / 60000) ≤ (2 : ℚ) ^ (-17 : Int) :=
    zpow_le_zpow_right₀ (by norm_num) (by omega)
  have hpow2 : (2 : ℚ) ^ (-17 : Int) = 1 / 131072 := by norm_num
  rw [abs_le] at herr
  have b1q : (60000 * (k : ℚ) - 30000) ≤ (d : ℚ) := by exact_mod_cast b1
  have b2q : (d : ℚ) + 1 ≤ 60000 * (k : ℚ) + 30000 := by exact_mod_cast b2
  apply mathRound_eq
  · by_cases htie : d = 60000 * k - 30000
    · have hx : (d : ℚ) / 60000 = ((2 * k - 1 : Int) : ℚ) * (2 : ℚ) ^ (-1 : Int) := by
        rw [htie]
        push_cast
        norm_num
        ring
      rw [toDouble_exact _ (2 * k - 1) (-1) hx (by omega), hx]
      push_cast
      norm_num
      linarith
    · have b1' : 60000 * k - 30000 + 1 ≤ d := by omega
      have b1q' : (60000 * (k : ℚ) - 30000 + 1) ≤ (d : ℚ) := by exact_mod_cast b1'
      have hx : (k : ℚ) - 1 / 2 + 1 / 60000 ≤ (d : ℚ) / 60000 := by
        rw [le_div_iff₀ (by norm_num)]
        linarith
      linarith [herr.1]
  · have hx : (d : ℚ) / 60000 ≤ (k : ℚ) + 1 / 2 - 1 / 60000 := by
      rw [div_le_iff₀ (by norm_num)]
      linarith
    linarith [herr.2]

theorem orNull_ne_empty (v : Option String) : orNull v ≠ some "" := by
  unfold orNull
  cases v with
  | none => simp [truthy]
  | some s =>
    by_cases h : s = ""
    · subst h; simp [truthy]
    · simp [truthy, h]

/-- C8. The `durationMinutes` of the record built for a page is `null` exactly
when the date's start or end is absent. When both are present, with time values
`a` and `b`, it is the number `n = Math.round(Math.max(0, b - a) / 60000)`; `n`
is never negative, is 0 whenever `b ≤ a`, and for a duration below `2 ^ 36`
minutes is the whole number of minutes nearest to the duration:
`60000 n - 30000 ≤ max(0, b - a) < 60000 n + 30000`. -/
theorem toCourse_durationMinutes (dateParse : String → Option Int) (page : Page) :
    (((toCourse dateParse page).dateStart = none ∨ (toCourse dateParse page).dateEnd = none) ↔
      (toCourse dateParse page).durationMinutes = .null) ∧
    ∀ s e : String, ∀ a b : Int,
      (toCourse dateParse page).dateStart = some s →
      (toCourse dateParse page).dateEnd = some e →
      dateParse s = some a → dateParse e = some b →
      ∃ n : Int, (toCourse dateParse page).durationMinutes = .minutes n ∧
        n = mathRound (toDouble (((max 0 (b - a) : Int) : ℚ) / 60000)) ∧
        0 ≤ n ∧ (b ≤ a → n = 0) ∧
        (max 0 (b - a) < 60000 * 2 ^ 36 →
          60000 * n - 30000 ≤ max 0 (b - a) ∧ max 0 (b - a) < 60000 * n + 30000) := by
  simp only [toCourse]
  have h1 := orNull_ne_empty
    (((page.properties.getD (fun _ => none) "日期").bind (·.date)).bind (·.start))
  have h2 := orNull_ne_empty
    (((page.properties.getD (fun _ => none) "日期").bind (·.date)).bind (·.«end»))
  revert h1 h2
  generalize orNull
    (((page.properties.getD (fun _ => none) "日期").bind (·.date)).bind (·.start)) = st
  generalize orNull
    (((page.properties.getD (fun _ => none) "日期").bind (·.date)).bind (·.«end»)) = en
  intro h1 h2
  constructor
  · cases st with
    | none => simp [durationMinutes]
    | some s =>
      cases en with
      | none => simp [durationMinutes]
      | some e =>
        have hs : s ≠ "" := fun h => h1 (by rw [h])
        have he : e ≠ "" := fun h => h2 (by rw [h])
        simp only [durationMinutes, hs, he, ne_eq, not_false_eq_true, and_self, if_true,
          reduceCtorEq, or_self, false_iff]
        cases dateParse s <;> cases dateParse e <;> simp
  · intro s e a b hs he ha hb
    subst hs he
    have hs : s ≠ "" := fun h => h1 (by rw [h])
    have he : e ≠ "" := fun h => h2 (by rw [h])
    refine ⟨mathRound (toDouble (((max 0 (b - a) : Int) : ℚ) / 60000)), ?_, rfl, ?_, ?_, ?_⟩
    · simp only [durationMinutes, hs, he, ne_eq, not_false_eq_true, and_self, if_true, ha, hb]
    · have hq : (0 : ℚ) ≤ ((max 0 (b - a) : Int) : ℚ) / 60000 := by
        have : (0 : ℚ) ≤ ((max 0 (b - a) : Int) : ℚ) := by exact_mod_cast le_max_left 0 (b - a)
        positivity
      have ht := toDouble_nonneg _ hq
      unfold mathRound
      exact Int.floor_nonneg.mpr (by linarith)
    · intro hba
      have h0 : max 0 (b - a) = 0 := by omega
      rw [h0]
      norm_num [toDouble, mathRound]
    · intro hlt
      rw [mathRound_toDouble_div _ (le_max_left 0 (b - a)) hlt]
      exact mathRound_div_bounds _

/-- Witness of C8 on `samplePage`: both dates present and parsed, 90 minutes. -/
theorem toCourse_durationMinutes_witness :
    (toCourse sampleParse samplePage).dateStart = some "2026-02-09T09:00:00.000+08:00" ∧
    (toCourse sampleParse samplePage).dateEnd = some "2026-02-09T10:30:00.000+08:00" ∧
    sampleParse "2026-02-09T09:00:00.000+08:00" = some 1770598800000 ∧
    sampleParse "2026-02-09T10:30:00.000+08:00" = some 1770604200000 ∧
    ∃ n : Int, (toCourse sampleParse samplePage).durationMinutes = .minutes n ∧
      n = mathRound (toDouble
        (((max 0 (1770604200000 - 1770598800000) : Int) : ℚ) / 60000)) ∧
      0 ≤ n ∧ ((1770604200000 : Int) ≤ 1770598800000 → n = 0) ∧
      ((max 0 (1770604200000 - 1770598800000) : Int) < 60000 * 2 ^ 36 →
        60000 * n - 30000 ≤ max 0 (1770604200000 - 1770598800000) ∧
        max 0 (1770604200000 - 1770598800000) < 60000 * n + 30000) :=
  ⟨by decide, by decide, by decide, by decide,
    (toCourse_durationMinutes sampleParse samplePage).2
      "2026-02-09T09:00:00.000+08:00" "2026-02-09T10:30:00.000+08:00"
      1770598800000 1770604200000 (by decide) (by decide) (by decide) (by decide)⟩

theorem readPropertyText_text (props : String → Option Property) (key : String)
    (h : ((props key).bind (·.type)) ≠ some "date") :
    ∃ s, readPropertyText props key = .text s := by
  unfold readPropertyText
  cases hp : props key with
  | none => exact ⟨_, rfl⟩
  | some p =>
    rw [hp] at h
    simp only [Option.some_bind] at h
    simp only
    split_ifs
    all_goals exact ⟨_, rfl⟩

theorem or_text (a b : PropertyText) (ha : ∃ s, a = .text s) (hb : ∃ s, b = .text s) :
    ∃ s, a.or b = .text s := by
  unfold PropertyText.or
  split_ifs
  · exact ha
  · exact hb

theorem or_text_nonempty (a : PropertyText) (d : String) (ha : ∃ s, a = .text s)
    (hd : d ≠ "") : ∃ s, a.or (.text d) = .text s ∧ s ≠ "" := by
  obtain ⟨s, rfl⟩ := ha
  unfold PropertyText.or
  by_cases hs : s = ""
  · subst hs
    exact ⟨d, by simp [PropertyText.truthy], hd⟩
  · exact ⟨s, by simp [PropertyText.truthy, hs], hs⟩

theorem readPropertyText_date (props : String → Option Property) (key : String)
    (h : ((props key).bind (·.type)) = some "date") :
    ∃ a b, readPropertyText props key = .dateRange a b := by
  unfold readPropertyText
  cases hp : props key with
  | none => rw [hp] at h; cases h
  | some p =>
    rw [hp] at h
    simp only [Option.some_bind] at h
    simp only [h, truthy]
    exact ⟨orNull (p.date.bind (·.start)), orNull (p.date.bind (·.«end»)), by simp⟩

/-- A property is date-typed exactly when `readPropertyText` reads it as an
object; otherwise it reads as a string. -/
theorem readPropertyText_shape (page : Page) (key : String) :
    (isDateTyped page key = true ∧
      ∃ a b, readPropertyText (page.properties.getD (fun _ => none)) key = .dateRange a b) ∨
    (isDateTyped page key = false ∧
      ∃ s, readPropertyText (page.properties.getD (fun _ => none)) key = .text s) := by
  by_cases h : ((page.properties.getD (fun _ => none) key).bind (·.type)) = some "date"
  · left
    exact ⟨by simp [isDateTyped, h], readPropertyText_date _ _ h⟩
  · right
    exact ⟨by simpa [isDateTyped] using h, readPropertyText_text _ _ h⟩

/-- C9, amended. For every page, `room` equals `clazz` (and `status` is a
string by its type). `teacher` is a non-empty string unless the property under
老师 is date-typed, and is then an object with `start` and `end`. `room` is a
string unless the property under 关联班级 is date-typed, and is then such an
object. `name` is a non-empty string or such an object, and it is the object
exactly when the first of the properties 课程主题/日期, 课程主题 and 名称 that
does not read as the empty string is date-typed. -/
theorem toCourse_display_fields (dateParse : String → Option Int) (page : Page) :
    (toCourse dateParse page).room = (toCourse dateParse page).clazz ∧
    ((isDateTyped page "老师" = false ∧
        ∃ t, (toCourse dateParse page).teacher = .text t ∧ t ≠ "") ∨
      (isDateTyped page "老师" = true ∧
        ∃ a b, (toCourse dateParse page).teacher = .dateRange a b)) ∧
    ((isDateTyped page "关联班级" = false ∧ ∃ r, (toCourse dateParse page).room = .text r) ∨
      (isDateTyped page "关联班级" = true ∧
        ∃ a b, (toCourse dateParse page).room = .dateRange a b)) ∧
    ((titleFromDate page = false ∧
        ∃ n, (toCourse dateParse page).name = .text n ∧ n ≠ "") ∨
      (titleFromDate page = true ∧
        ∃ a b, (toCourse dateParse page).name = .dateRange a b)) := by
  refine ⟨rfl, ?_, ?_, ?_⟩
  · rcases readPropertyText_shape page "老师" with ⟨hd, a, b, hr⟩ | ⟨hd, s, hr⟩
    · right
      exact ⟨hd, a, b, by simp [toCourse, hr, PropertyText.or, PropertyText.truthy]⟩
    · left
      refine ⟨hd, ?_⟩
      simp only [toCourse, hr]
      exact or_text_nonempty _ _ ⟨s, rfl⟩ (by decide)
  · rcases readPropertyText_shape page "关联班级" with ⟨hd, a, b, hr⟩ | ⟨hd, s, hr⟩
    · right
      exact ⟨hd, a, b, by simp [toCourse, hr, PropertyText.or, PropertyText.truthy]⟩
    · left
      refine ⟨hd, ?_⟩
      simp only [toCourse, hr]
      exact or_text _ _ ⟨s, rfl⟩ ⟨"", rfl⟩
  · simp only [titleFromDate, readsEmpty, toCourse]
    rcases readPropertyText_shape page "课程主题/日期" with ⟨hd1, a1, b1, hr1⟩ | ⟨hd1, s1, hr1⟩ <;>
    rcases readPropertyText_shape page "课程主题" with ⟨hd2, a2, b2, hr2⟩ | ⟨hd2, s2, hr2⟩ <;>
    rcases readPropertyText_shape page "名称" with ⟨hd3, a3, b3, hr3⟩ | ⟨hd3, s3, hr3⟩ <;>
    simp only [hd1, hd2, hd3, hr1, hr2, hr3] <;>
    (try by_cases e1 : s1 = "") <;> (try by_cases e2 : s2 = "") <;>
    (try by_cases e3 : s3 = "") <;>
    simp_all [PropertyText.or, PropertyText.truthy]

/-- A date-typed title property that a non-empty earlier title property shadows
leaves `name` a string. -/
theorem toCourse_shadowed_date_title :
    isDateTyped shadowedDatePage "课程主题" = true ∧
    titleFromDate shadowedDatePage = false ∧
    (toCourse sampleParse shadowedDatePage).name = .text "科目二" := by
  decide

/-- C9 as stated fails on a page whose teacher property is date-typed: the
record's `teacher` is the object with `start` and `end` that `readPropertyText`
returns for a date, not a string. -/
theorem toCourse_date_teacher :
    (toCourse sampleParse dateTeacherPage).teacher = .dateRange (some "2026-02-09") none ∧
    ¬ ∃ s, (toCourse sampleParse dateTeacherPage).teacher = .text s := by
  have h : (toCourse sampleParse dateTeacherPage).teacher =
      .dateRange (some "2026-02-09") none := by decide
  refine ⟨h, ?_⟩
  rintro ⟨s, hs⟩
  rw [h] at hs
  cases hs

/-! ## `mapStatusToClass` (C6) -/

/-- C6, evaluated. The canonical label 进行中 maps to the ongoing class; but
the status text `constructor`, which is none of the four canonical labels and
contains none of the keywords, does not map to the planned class: the lookup
`directMap[s]` finds the member `constructor` that the object literal inherits
from `Object.prototype`, and that member is returned. -/
theorem mapStatusToClass_constructor :
    mapStatusToClass (some "进行中") = .cls "status-ongoing" ∧
    mapStatusToClass (some "constructor") = .inherited "constructor" ∧
    mapStatusToClass (some "constructor") ≠ .cls "status-planned" ∧
    "constructor" ∉ ["进行中", "计划中", "已完成", "已取消"] ∧
    containsSub "进行".toList "constructor".toList = false ∧
    containsSub "计划".toList "constructor".toList = false ∧
    containsSub "未开始".toList "constructor".toList = false ∧
    containsSub "完成".toList "constructor".toList = false ∧
    containsSub "取消".toList "constructor".toList = false := by
  decide

/-- The default: a status text that, once trimmed, is neither a canonical label
nor a property name of `Object.prototype` and contains no keyword maps to the
planned class. -/
theorem mapStatusToClass_default (statusText : Option String) (s : String)
    (hs : s = String.mk (jsTrim (statusText.getD "").toList))
    (hcanon : s ∉ ["进行中", "计划中", "已完成", "已取消"])
    (hproto : s ∉ objectPrototypeKeys)
    (h1 : containsSub "进行".toList s.toList = false)
    (h2 : containsSub "计划".toList s.toList = false)
    (h3 : containsSub "未开始".toList s.toList = false)
    (h4 : containsSub "完成".toList s.toList = false)
    (h5 : containsSub "取消".toList s.toList = false) :
    mapStatusToClass statusText = .cls "status-planned" := by
  simp only [List.mem_cons, List.mem_singleton, List.not_mem_nil, or_false, not_or] at hcanon
  obtain ⟨c1, c2, c3, c4⟩ := hcanon
  unfold mapStatusToClass
  simp only [← hs, directMap, c1, c2, c3, c4, hproto, if_false, h1, h2, h3, h4, h5,
    Bool.or_self, Bool.false_eq_true]

/-! ## `formatAttendance` (C7) -/

theorem toDouble_fifty : toDouble 50 = 50 := by
  have h := toDouble_intCast 50 (by norm_num)
  exact_mod_cast h

theorem toDouble_hundred : toDouble 100 = 100 := by
  have h := toDouble_intCast 100 (by norm_num)
  exact_mod_cast h

/-- C7. For every finite number `v`, `formatAttendance(v)` is the attendance
text with the integer `n` nearest (a tie going up) to the double product
`v * 100` when `v ≤ 1` and to `v` itself when `v > 1`; and the values 0.5, 50
and 1 render 50%, 50% and 100%. -/
theorem formatAttendance_spec (v : ℚ) :
    (∃ n : Int, formatAttendance (some v) = "出勤率 " ++ toString n ++ "%" ∧
      (n : ℚ) - 1 / 2 ≤ (if v ≤ 1 then toDouble (v * 100) else v) ∧
      (if v ≤ 1 then toDouble (v * 100) else v) < n + 1 / 2) ∧
    formatAttendance (some (1 / 2)) = "出勤率 50%" ∧
    formatAttendance (some 50) = "出勤率 50%" ∧
    formatAttendance (some 1) = "出勤率 100%" := by
  refine ⟨?_, ?_, ?_, ?_⟩
  · by_cases hv : v ≤ 1
    · refine ⟨mathRound (toDouble (v * 100)), ?_, ?_⟩
      · simp only [formatAttendance, hv, if_true]
      · simp only [hv, if_true]
        exact mathRound_bounds _
    · refine ⟨mathRound v, ?_, ?_⟩
      · simp only [formatAttendance, hv, if_false]
      · simp only [hv, if_false]
        exact mathRound_bounds _
  · have h1 : ((1 / 2 : ℚ) ≤ 1) := by norm_num
    have h2 : (1 / 2 : ℚ) * 100 = 50 := by norm_num
    have h3 : mathRound 50 = 50 := by unfold mathRound; norm_num
    simp only [formatAttendance, h1, if_true, h2, toDouble_fifty, h3]
    decide
  · have h1 : ¬ ((50 : ℚ) ≤ 1) := by norm_num
    have h3 : mathRound 50 = 50 := by unfold mathRound; norm_num
    simp only [formatAttendance, h1, if_false, h3]
    decide
  · have h1 : ((1 : ℚ) ≤ 1) := le_refl _
    have h2 : (1 : ℚ) * 100 = 100 := by norm_num
    have h3 : mathRound 100 = 100 := by unfold mathRound; norm_num
    simp only [formatAttendance, h1, if_true, h2, toDouble_hundred, h3]
    decide

/-! ## Rendering an empty week (C5) -/

/-- An empty or missing list renders as exactly one placeholder and no card,
without an error, whenever the element `#schedule` exists. -/
theorem renderSchedule_empty (dom : Dom) (container : Container)
    (classes : Option (List (Option Course)))
    (hc : dom.schedule = some container) (he : classes = none ∨ classes = some []) :
    (renderSchedule dom classes).2 = none ∧
    (renderSchedule dom classes).1.schedule =
      some { container with children := [emptyPlaceholder] } ∧
    countClass (renderSchedule dom classes).1 "empty" = 1 ∧
    countClass (renderSchedule dom classes).1 "class-card" = 0 := by
  rcases he with he | he <;> subst he <;>
    simp [renderSchedule, hc, countClass, emptyPlaceholder, Element.className]

/-- On every page with an element `#schedule`, when no course of the cache
falls in the selected week the timer callback of `renderCoursesByWeek` throws
at the call of `renderEmptyState`, and the children of `#schedule` are the ones
it had before. -/
theorem renderCoursesByWeek_empty_week (z : Zone) (dateParse : String → Option Int)
    (now later : Int) (dom : Dom) (container : Container) (weekType : String)
    (hc : dom.schedule = some container)
    (he : filterByWeek z dateParse now (some (dom.allClasses.getD []))
      (if weekType = "next" then 1 else 0) = []) :
    (renderCoursesByWeek z dateParse now later dom weekType).2 = some renderEmptyStateError ∧
    (renderCoursesByWeek z dateParse now later dom weekType).1.schedule =
      some { container with classList := classListAdd container.classList "is-fading" } := by
  simp [renderCoursesByWeek, hc, he, renderCoursesByWeekCallback]

/-- C5, evaluated. On a page whose cache holds no course and whose `#schedule`
still shows one card, `renderSchedule` of the empty list leaves exactly one
placeholder and no card, but the week-switch path `renderCoursesByWeek` ends in
a ReferenceError at the call of the undeclared `renderEmptyState` and leaves no
placeholder and the old card; the sibling path `renderWeek` leaves one
placeholder and no card. -/
theorem renderCoursesByWeek_empty_throws :
    (renderSchedule staleDom (some [])).2 = none ∧
    countClass (renderSchedule staleDom (some [])).1 "empty" = 1 ∧
    countClass (renderSchedule staleDom (some [])).1 "class-card" = 0 ∧
    (renderCoursesByWeek utcPlus8 (fun _ => none) 1770768000000 1770768000150
      staleDom "current").2 = some renderEmptyStateError ∧
    countClass (renderCoursesByWeek utcPlus8 (fun _ => none) 1770768000000 1770768000150
      staleDom "current").1 "empty" = 0 ∧
    countClass (renderCoursesByWeek utcPlus8 (fun _ => none) 1770768000000 1770768000150
      staleDom "current").1 "class-card" = 1 ∧
    (renderWeek utcPlus8 (fun _ => none) 1770768000000 staleDom "current").2 = none ∧
    countClass (renderWeek utcPlus8 (fun _ => none) 1770768000000 staleDom "current").1
      "empty" = 1 ∧
    countClass (renderWeek utcPlus8 (fun _ => none) 1770768000000 staleDom "current").1
      "class-card" = 0 := by
  decide

/-! ## `mapStatusToClass`: keyword order (C11) -/

theorem specKeywordClass_mem (text : List Char) : specKeywordClass text ∈ styleClasses := by
  unfold specKeywordClass keywordGroups
  simp only [List.find?, List.any, Bool.or_false]
  cases containsSub "进行".toList text <;> cases containsSub "计划".toList text <;>
    cases containsSub "未开始".toList text <;> cases containsSub "完成".toList text <;>
    cases containsSub "取消".toList text <;> simp [styleClasses]

/-- Apart from the property names of `Object.prototype`, a status text that is
not a canonical label once trimmed maps to the class of the first keyword group
that occurs in it, planned when none does; the result is one of the four style
class names. -/
theorem mapStatusToClass_keyword_order (statusText : Option String) (s : String)
    (hs : s = String.mk (jsTrim (statusText.getD "").toList))
    (hcanon : s ∉ ["进行中", "计划中", "已完成", "已取消"])
    (hproto : s ∉ objectPrototypeKeys) :
    mapStatusToClass statusText = .cls (specKeywordClass s.toList) ∧
    specKeywordClass s.toList ∈ styleClasses := by
  refine ⟨?_, specKeywordClass_mem _⟩
  simp only [List.mem_cons, List.mem_singleton, List.not_mem_nil, or_false, not_or] at hcanon
  obtain ⟨c1, c2, c3, c4⟩ := hcanon
  unfold mapStatusToClass
  simp only [← hs, directMap, c1, c2, c3, c4, hproto, if_false]
  unfold specKeywordClass keywordGroups
  simp only [List.find?, List.any, Bool.or_false]
  cases containsSub "进行".toList s.toList <;> cases containsSub "计划".toList s.toList <;>
    cases containsSub "未开始".toList s.toList <;> cases containsSub "完成".toList s.toList <;>
    cases containsSub "取消".toList s.toList <;> simp

/-- C11, evaluated. A text containing both 进行 and 取消 maps to the ongoing
class, as the keyword order says. But the status text `constructor`, which is
not a canonical label once trimmed and for which the keyword rule gives the
planned class, maps to the member `constructor` inherited from
`Object.prototype`: the result is none of the four style class names. -/
theorem mapStatusToClass_not_a_style_class :
    mapStatusToClass (some "已取消后重新进行") = .cls "status-ongoing" ∧
    String.mk (jsTrim "constructor".toList) ∉ ["进行中", "计划中", "已完成", "已取消"] ∧
    specKeywordClass (jsTrim "constructor".toList) = "status-planned" ∧
    mapStatusToClass (some "constructor") = .inherited "constructor" ∧
    ∀ c ∈ styleClasses, mapStatusToClass (some "constructor") ≠ .cls c := by
  decide

end Jiaxiao
